import Mathlib

/-
Verification of the pipeline orchestration engine of the Magento → Medusa
connector: the step/status/stats data model, the Dead Letter Queue handler,
dependency-graph validation, the sequential scheduler (`SyncPipeline.run`),
state persistence/resume, and the concurrent scheduler
(`AsyncSyncPipeline.run_async`).

Shallow-embedding conventions used throughout:
  * Python `datetime.now()` values are modelled as `Nat` clock readings that
    are supplied as explicit inputs wherever the code reads the clock and the
    reading is observable (DLQ timestamps / batch ids / file names).  Clock
    readings that are only logged (step start/end times, durations) are not
    modelled.
  * Python dicts are modelled as insertion-ordered association lists, which is
    exactly their iteration behaviour.
  * Python ints are modelled as `Int` (for mutable counters) or `Nat` (for
    attempt counts, which are only ever incremented); float division is
    modelled over `ℚ`.
  * `time.sleep(d)` is modelled by appending `d` to a ghost trace `sleeps`, so
    backoff behaviour is observable without modelling real time.
  * raising / catching exceptions is modelled with `Except` or with an
    explicit `Option String` "pending exception" component.
-/

namespace MagMed

/-- Status enumeration of `core/pipeline/pipeline_status.py` (the commented
monolith in `core/pipeline.py` omits the last two constructors but its code
refers to `SKIPPED`, so the package version is the authoritative enum). -/
inductive PipelineStatus where
  | pending
  | running
  | paused
  | completed
  | failed
  | cancelled
  | skipped
  | retrying
deriving DecidableEq, Repr

/-- Statistics counters of `PipelineStats` (`core/pipeline/pipeline_stats.py`).
The `start_time` / `end_time` wall-clock fields are not modelled; the derived
`duration` property depends only on them and is likewise out of the model. -/
structure PipelineStats where
  total_steps : Int := 0
  completed_steps : Int := 0
  failed_steps : Int := 0
  skipped_steps : Int := 0
  total_items_processed : Int := 0
  successful_items : Int := 0
  failed_items : Int := 0
deriving DecidableEq, Repr

/-- The `success_rate` property of `PipelineStats`: Python computes
`(successful_items / total_items_processed) * 100` with float division,
returning `0.0` when no items were processed; real division is modelled
over `ℚ`. -/
def PipelineStats.success_rate (s : PipelineStats) : ℚ :=
  if s.total_items_processed = 0 then 0
  else ((s.successful_items : ℚ) / (s.total_items_processed : ℚ)) * 100

/-- The optional `stats` sub-mapping of an executor result
(`{total_processed, successful, failed}` counters, each key optional),
merged into the pipeline statistics on step success. -/
structure StatsDelta where
  total_processed : Option Int := none
  successful : Option Int := none
  failed : Option Int := none
deriving DecidableEq, Repr

/-- Merging of an executor result's `stats` sub-mapping into the pipeline
statistics, as done in `SyncPipeline._execute_step` (and duplicated in
`AsyncSyncPipeline._update_stats_from_result`): each of the three counters is
added when its key is present. -/
def mergeDelta (st : PipelineStats) (d : Option StatsDelta) : PipelineStats :=
  match d with
  | none => st
  | some d =>
    let st := match d.total_processed with
      | some n => { st with total_items_processed := st.total_items_processed + n }
      | none => st
    let st := match d.successful with
      | some n => { st with successful_items := st.successful_items + n }
      | none => st
    match d.failed with
      | some n => { st with failed_items := st.failed_items + n }
      | none => st

/-! ## Dead Letter Queue (`core/dlq_handler.py`) -/

/-- A DLQ record as stored in a batch: the caller's item (payload) augmented
with the three metadata fields added by `DLQHandler.add_item`.  The two
`datetime.now()` readings taken while adding one item (ISO timestamp and
batch id) fall in the same instant of the modelled clock. -/
structure DlqItem (α : Type) where
  payload : α
  dlq_timestamp : Nat
  entity_type : String
  batch_id : Nat
deriving DecidableEq, Repr

/-- Name of a DLQ batch file, `f"{entity_type}_{timestamp}.json"`.  The name
is kept structured (entity and second-resolution stamp) rather than as a
concatenated string; the glob `f"{entity_type}_*.json"` used by `get_count`
matches exactly the names with the handler's entity. -/
structure DlqFileName where
  entity : String
  stamp : Nat
deriving DecidableEq, Repr

/-- State of a `DLQHandler`: its entity type, the JSON batch files currently
present in its directory (file name ↦ parsed contents), and the in-memory
current batch.  `batch_size` is the constant 100 set in `__init__`. -/
structure DLQHandler (α : Type) where
  entity_type : String
  files : List (DlqFileName × List (DlqItem α))
  current_batch : List (DlqItem α)
deriving DecidableEq, Repr

/-- Batch size threshold fixed in `DLQHandler.__init__`. -/
def dlqBatchSize : Nat := 100

/-- Writing a file with `open(filepath, 'w')`: an existing file of the same
name is overwritten, otherwise a new file is created. -/
def fsWrite {α : Type} (files : List (DlqFileName × List (DlqItem α)))
    (name : DlqFileName) (contents : List (DlqItem α)) :
    List (DlqFileName × List (DlqItem α)) :=
  if files.any (fun pr => pr.1 = name) then
    files.map (fun pr => if pr.1 = name then (name, contents) else pr)
  else
    files ++ [(name, contents)]

/-- The `_flush_batch` method: an empty batch is not written; otherwise the
batch is dumped to `{entity_type}_{timestamp}.json` and, when the write
succeeds, the in-memory batch is cleared.  A failing write is caught and
logged, leaving the batch in place (`writeOk` models whether the dump
raises). -/
def DLQHandler.flushBatch {α : Type} (writeOk : Bool) (now : Nat)
    (h : DLQHandler α) : DLQHandler α :=
  if h.current_batch.isEmpty then h
  else if writeOk then
    { h with
      files := fsWrite h.files ⟨h.entity_type, now⟩ h.current_batch
      current_batch := [] }
  else h

/-- The `add_item` method: the item is augmented with
`{dlq_timestamp, entity_type, batch_id}` and appended to the current batch;
when the batch reaches `batch_size` items it is flushed. -/
def DLQHandler.add_item {α : Type} (writeOk : Bool) (now : Nat)
    (h : DLQHandler α) (item : α) : DLQHandler α :=
  let it : DlqItem α := ⟨item, now, h.entity_type, now⟩
  let h := { h with current_batch := h.current_batch ++ [it] }
  if dlqBatchSize ≤ h.current_batch.length then h.flushBatch writeOk now else h

/-- The `get_count` method: the in-memory batch size plus the item counts of
every on-disk file matching `{entity_type}_*.json`. -/
def DLQHandler.get_count {α : Type} (h : DLQHandler α) : Nat :=
  h.current_batch.length +
    (((h.files.filter (fun pr => pr.1.entity = h.entity_type)).map
      (fun pr => pr.2.length)).sum)

/-- A fresh handler for an entity: empty directory, empty batch. -/
def mkDLQ (α : Type) (entity : String) : DLQHandler α :=
  ⟨entity, [], []⟩

/-- A sequence of `add_item` calls (with their clock readings), folded over
the handler state. -/
def addAll {α : Type} (h : DLQHandler α) (items : List (Nat × α)) : DLQHandler α :=
  items.foldl (fun h pr => h.add_item true pr.1 pr.2) h

/-- Metadata augmentation performed by `add_item` for entity `e` at clock
reading `now`. -/
def augment {α : Type} (e : String) (pr : Nat × α) : DlqItem α :=
  ⟨pr.2, pr.1, e, pr.1⟩

/-! ## Dependency graph and validation (`SyncPipeline._validate_pipeline`,
`SyncPipeline._has_circular_dependencies`) -/

/-- The adjacency lookup `self.dependency_graph.get(step_id, [])`. -/
def graphGet (g : List (String × List String)) (sid : String) : List String :=
  ((g.find? (fun pr => pr.1 == sid)).map (fun pr => pr.2)).getD []

/-- Edge of the dependency digraph: step `a` depends on `b`. -/
def Edge (g : List (String × List String)) (a b : String) : Prop :=
  b ∈ graphGet g a

/-- Nonempty directed path in the dependency digraph. -/
inductive Path (g : List (String × List String)) : String → String → Prop where
  | single {a b} : Edge g a b → Path g a b
  | cons {a b c} : Edge g a b → Path g b c → Path g a c

/-- The dependency graph contains a directed cycle. -/
def HasCycle (g : List (String × List String)) : Prop := ∃ v, Path g v v

/-- Outcome of the depth-first walk of `_has_circular_dependencies`: either
the recursion budget ran out (a model artifact, proved unreachable below), a
back-edge into the recursion stack was found, or the walk finished and
returns the enlarged visited set. -/
inductive DfsRes where
  | fuelOut
  | cyc
  | finished (visited : List String)
deriving DecidableEq, Repr

/-- The `for neighbor in ...` loop of `dfs`: an unvisited neighbor is
recursed into (`visit` is the recursive `dfs` call, at the decremented
budget); a visited neighbor on the recursion stack is a back-edge, hence a
cycle. -/
def dfsStep (visit : String → List String → List String → DfsRes) :
    List String → List String → List String → DfsRes
  | [], visited, _ => .finished visited
  | n :: ns, visited, stack =>
      if visited.contains n then
        if stack.contains n then .cyc else dfsStep visit ns visited stack
      else
        match visit n visited stack with
        | .fuelOut => .fuelOut
        | .cyc => .cyc
        | .finished visited' => dfsStep visit ns visited' stack

/-- The inner `dfs(node)` of `_has_circular_dependencies`: mark `node`
visited and on the recursion stack, then scan its dependency list.  On a
normal return the node is removed from the recursion stack again, which the
model renders by the caller keeping its own `stack` value. -/
def dfsVisit (g : List (String × List String)) :
    Nat → String → List String → List String → DfsRes
  | 0, _, _, _ => .fuelOut
  | Nat.succ fuel, node, visited, stack =>
      dfsStep (dfsVisit g fuel) (graphGet g node) (node :: visited) (node :: stack)

/-- The `for step_id in self.steps` loop of `_has_circular_dependencies`:
run `dfs` from every not-yet-visited step id; the recursion stack is empty
between the top-level calls. -/
def dfsAll (g : List (String × List String)) (fuel : Nat) :
    List String → List String → DfsRes
  | [], visited => .finished visited
  | k :: ks, visited =>
      if visited.contains k then dfsAll g fuel ks visited
      else
        match dfsVisit g fuel k visited [] with
        | .fuelOut => .fuelOut
        | .cyc => .cyc
        | .finished visited' => dfsAll g fuel ks visited'

/-- Every id that can ever be passed to `dfs`: the keys of the graph together
with every id appearing in an adjacency list. -/
def nodePool (g : List (String × List String)) : List String :=
  g.map (fun pr => pr.1) ++ (g.map (fun pr => pr.2)).flatten

/-- Recursion budget used to run the (in Python, unbounded) recursion of
`dfs`; the budget is proved sufficient below, so the `fuelOut` branch never
fires. -/
def dfsFuel (g : List (String × List String)) : Nat := (nodePool g).length + 1

/-- `_has_circular_dependencies`. -/
def hasCircularDependencies (g : List (String × List String)) : Bool :=
  match dfsAll g (dfsFuel g) (g.map (fun pr => pr.1)) [] with
  | .cyc => true
  | _ => false

/-- Termination measure of the depth-first walk: the number of distinct
reachable ids not yet visited. -/
def unvisitedCount (g : List (String × List String)) (visited : List String) : Nat :=
  ((nodePool g).toFinset \ visited.toFinset).card

/-- The recursion stack is a chain of edges: each pushed node is a dependency
of the node that was on top when it was pushed. -/
def StackOk (g : List (String × List String)) : List String → Prop
  | [] => True
  | [_] => True
  | a :: b :: rest => Edge g b a ∧ StackOk g (b :: rest)

/-- Some cycle is reachable from `v` (possibly `v` itself lies on one). -/
def ReachesCycle (g : List (String × List String)) (v : String) : Prop :=
  ∃ w, Path g w w ∧ (v = w ∨ Path g v w)

/-- First dependency reference whose target id is not a step id, scanning in
insertion order — the second check of `_validate_pipeline`. -/
def findMissingDep :
    List (String × List String) → List String → Option (String × String)
  | [], _ => none
  | (sid, deps) :: rest, ids =>
      match deps.find? (fun d => !ids.contains d) with
      | some d => some (sid, d)
      | none => findMissingDep rest ids

/-- `_validate_pipeline` at the level of the dependency graph (the step dict
and the graph always have identical keys, both written only by `add_step`):
raise `ValueError` on a circular dependency, then on a dependency reference
to a non-existent step id. -/
def validateGraph (g : List (String × List String)) : Except String Unit :=
  if hasCircularDependencies g then .error "Pipeline has circular dependencies"
  else
    match findMissingDep g (g.map (fun pr => pr.1)) with
    | some pr =>
        .error ("Dependency " ++ pr.2 ++ " referenced by " ++ pr.1 ++ " does not exist")
    | none => .ok ()

/-! ## Pipeline data model (`PipelineStep`, `SyncPipeline` state) -/

/-- Outcome of one invocation of a step executor: a result dict, of which the
scheduler only inspects the optional `stats` sub-mapping, or a raised
exception with its message.  Executors are modelled as functions of the
invocation number (the value of `step.attempts` during the call), which lets
a closure fail on some invocations and succeed on later ones. -/
inductive ExecOutcome where
  | ok (stats : Option StatsDelta)
  | err (msg : String)
deriving DecidableEq, Repr

/-- The executor table: step id ↦ (invocation number ↦ outcome).  The
`params` mapping and the injected `dry_run` flag are folded into the
executor's behaviour, which is all `run` observes of them. -/
def Executors : Type := String → Nat → ExecOutcome

/-- A `PipelineStep`: configuration (id derived from the name by `add_step`
time, dependency ids, retry limit, enabled flag) plus the runtime state
mutated by the scheduler.  `timeout` is never read by either scheduler and
`start_time`/`end_time` are wall-clock only, so neither is modelled. -/
structure PipelineStep where
  id : String
  name : String
  depends_on : List String := []
  retries : Nat := 3
  enabled : Bool := true
  status : PipelineStatus := .pending
  error : Option String := none
  attempts : Nat := 0
deriving DecidableEq, Repr

/-- An entry of `self.errors`: step-level entries carry the step id/name and
attempt number; the generic entry appended by the `except` block of `run`
carries only the message.  ISO timestamps and float durations are
wall-clock only and not modelled. -/
structure ErrorRecord where
  step_id : Option String := none
  step_name : Option String := none
  error : String
  attempt : Option Nat := none
deriving DecidableEq, Repr

/-- The payload pushed to the pipeline-entity DLQ on a step failure.  The
pipeline's `DLQHandler('pipeline')` instance is modelled by the sequence of
payloads added to it (batching and flushing of the handler are verified
separately on `DLQHandler` itself). -/
structure DlqEntry where
  step_id : String
  step_name : String
  error : String
  attempt : Nat
deriving DecidableEq, Repr

/-- The mutable state of a `SyncPipeline`: insertion-ordered step dict,
overall status, statistics, results dict, error list and the items added to
the pipeline DLQ.  `sleeps` is a ghost trace recording every
`time.sleep(2 ** attempts)` backoff call.  The `dependency_graph` dict is
kept in lockstep with `steps` by `add_step`, so it is derived (`graph`
below) rather than stored. -/
structure Pipeline where
  pipeline_id : String := "pipeline"
  steps : List PipelineStep := []
  status : PipelineStatus := .pending
  stats : PipelineStats := {}
  results : List (String × Option StatsDelta) := []
  errors : List ErrorRecord := []
  dlqItems : List DlqEntry := []
  sleeps : List Nat := []
deriving DecidableEq, Repr

/-- The `dependency_graph` dict: step id ↦ dependency ids, in step insertion
order. -/
def Pipeline.graph (p : Pipeline) : List (String × List String) :=
  p.steps.map (fun s => (s.id, s.depends_on))

/-- Lookup `self.steps[step_id]`. -/
def Pipeline.findStep (p : Pipeline) (sid : String) : Option PipelineStep :=
  p.steps.find? (fun s => s.id == sid)

/-- Commit a mutation of the step object with id `s.id` back into the step
dict (Python mutates the shared object in place). -/
def Pipeline.setStep (p : Pipeline) (s : PipelineStep) : Pipeline :=
  { p with steps := p.steps.map (fun t => if t.id == s.id then s else t) }

/-- Upsert into the `results` dict. -/
def upsertResult (rs : List (String × Option StatsDelta)) (sid : String)
    (v : Option StatsDelta) : List (String × Option StatsDelta) :=
  if rs.any (fun pr => pr.1 == sid) then
    rs.map (fun pr => if pr.1 == sid then (sid, v) else pr)
  else
    rs ++ [(sid, v)]

/-- Add a step id to the `executed_steps` set. -/
def insertId (executed : List String) (sid : String) : List String :=
  if executed.contains sid then executed else executed ++ [sid]

/-! ## Ready-set computation (`SyncPipeline._get_ready_steps`,
`SyncPipeline._find_unresolved_dependencies`) -/

/-- Stable insertion of `x` into a list sorted ascending by `key`: `x` goes
before the first element with a key not smaller than its own, which is the
placement a stable sort gives the later-arriving element. -/
def insertByKey (key : String → Nat) (x : String) : List String → List String
  | [] => [x]
  | y :: ys => if key y < key x then y :: insertByKey key x ys else x :: y :: ys

/-- Stable ascending sort by `key`; Python's `list.sort(key=...)` is stable
and ascending, and any two stable ascending sorts agree. -/
def sortByKey (key : String → Nat) : List String → List String
  | [] => []
  | x :: xs => insertByKey key x (sortByKey key xs)

/-- Sort key used by `_get_ready_steps`:
`len(self.dependency_graph.get(x, []))`. -/
def depCount (p : Pipeline) (sid : String) : Nat := (graphGet p.graph sid).length

/-- `_get_ready_steps`: every step not yet executed whose dependency list is
contained in the executed set, in step insertion order, then sorted
(stably) by ascending dependency count. -/
def getReadySteps (p : Pipeline) (executed : List String) : List String :=
  let ready := (p.steps.filter (fun s =>
    !executed.contains s.id &&
      (graphGet p.graph s.id).all (fun d => executed.contains d))).map
    (fun s => s.id)
  sortByKey (depCount p) ready

/-- `_find_unresolved_dependencies`: the not-yet-executed steps paired with
their missing dependencies, for those with at least one missing. -/
def findUnresolved (p : Pipeline) (executed : List String) :
    List (String × List String) :=
  p.steps.filterMap (fun s =>
    if executed.contains s.id then none
    else
      let missing := (graphGet p.graph s.id).filter (fun d => !executed.contains d)
      if missing.isEmpty then none else some (s.id, missing))

/-- `_validate_pipeline` on a pipeline (the keys of `steps` and of
`dependency_graph` coincide). -/
def validatePipeline (p : Pipeline) : Except String Unit :=
  validateGraph p.graph

/-! ## Sequential scheduler (`SyncPipeline.run`) -/

/-- The fixed critical set of `_handle_step_failure`. -/
def criticalSteps : List String := ["step_test_connections", "step_sync_categories"]

/-- `_handle_step_failure`: a critical step forces the pipeline status to
`failed`; a non-critical failure only logs. -/
def handleStepFailure (p : Pipeline) (sid : String) : Pipeline :=
  if criticalSteps.contains sid then { p with status := .failed } else p

/-- `_execute_step`: bump the attempt counter, run the executor, and either
record the result and merge its stats (success) or append an error record
and a DLQ item (failure).  Returns the success flag, the updated pipeline
and the updated step object (Python's local `step` after mutation). -/
def executeStep (execs : Executors) (p : Pipeline) (s : PipelineStep) :
    Bool × Pipeline × PipelineStep :=
  let s := { s with attempts := s.attempts + 1, status := .running }
  match execs s.id s.attempts with
  | .ok r =>
      let s := { s with status := .completed }
      let p := p.setStep s
      let p := { p with
        results := upsertResult p.results s.id r
        stats := mergeDelta p.stats r }
      (true, p, s)
  | .err m =>
      let s := { s with status := .failed, error := some m }
      let p := p.setStep s
      let p := { p with
        errors := p.errors ++ [{ step_id := some s.id, step_name := some s.name,
                                 error := m, attempt := some s.attempts }]
        dlqItems := p.dlqItems ++ [⟨s.id, s.name, m, s.attempts⟩] }
      (false, p, s)

/-- The `for step_id in ready_steps` body of `run`: disabled steps are
counted as skipped; an enabled step is executed, retried at most once within
the wave after a `2 ** attempts` backoff sleep, and handed to
`_handle_step_failure` (followed by `break`, the `true` flag) when both
attempts of the wave fail. -/
def processReady (execs : Executors) :
    List String → Pipeline → List String → Pipeline × List String × Bool
  | [], p, executed => (p, executed, false)
  | sid :: rest, p, executed =>
    match p.findStep sid with
    | none => processReady execs rest p executed
    | some step =>
      if !step.enabled then
        let p := p.setStep { step with status := .pending }
        let p := { p with stats :=
          { p.stats with skipped_steps := p.stats.skipped_steps + 1 } }
        processReady execs rest p (insertId executed sid)
      else
        match executeStep execs p step with
        | (true, p, _) =>
          let p := { p with stats :=
            { p.stats with completed_steps := p.stats.completed_steps + 1 } }
          processReady execs rest p (insertId executed sid)
        | (false, p, step1) =>
          let p := { p with stats :=
            { p.stats with failed_steps := p.stats.failed_steps + 1 } }
          if step1.attempts < step1.retries then
            let p := { p with sleeps := p.sleeps ++ [2 ^ step1.attempts] }
            match executeStep execs p step1 with
            | (true, p, _) =>
              let p := { p with stats :=
                { p.stats with completed_steps := p.stats.completed_steps + 1,
                               failed_steps := p.stats.failed_steps - 1 } }
              processReady execs rest p (insertId executed sid)
            | (false, p, _) => (handleStepFailure p sid, executed, true)
          else (handleStepFailure p sid, executed, true)

/-- The `while len(executed_steps) < len(self.steps)` loop of `run`.  The
returned `Option String` is the exception escaping the loop: the deadlock
`RuntimeError` on unresolved dependencies, or the model-artifact budget
marker (each pass through the loop that does not exit adds at least one step
to the executed set, so the budget `steps.length + 1` is never exhausted –
the theorems below only ever evaluate the loop, they never hit the 0 case).
After the wave, any step left in status `failed` breaks the loop. -/
def runLoop (execs : Executors) :
    Nat → Pipeline → List String → Pipeline × Option String
  | 0, p, _ => (p, some "loop budget exhausted")
  | Nat.succ fuel, p, executed =>
    if executed.length < p.steps.length then
      let ready := getReadySteps p executed
      if ready.isEmpty then
        if (findUnresolved p executed).isEmpty then (p, none)
        else (p, some "Unresolved dependencies")
      else
        match processReady execs ready p executed with
        | (p, executed, _brk) =>
          if p.steps.any (fun s => decide (s.status = .failed)) then (p, none)
          else runLoop execs fuel p executed
    else (p, none)

/-- The result dict returned by `run` and `run_async`:
`{pipeline_id, status, stats, results, errors, dry_run}`. -/
structure RunResult where
  pipeline_id : String
  status : PipelineStatus
  stats : PipelineStats
  results : List (String × Option StatsDelta)
  errors : List ErrorRecord
  dry_run : Bool
deriving DecidableEq, Repr

/-- Build the result dict from the final `self`. -/
def mkResult (p : Pipeline) (dry_run : Bool) : RunResult :=
  ⟨p.pipeline_id, p.status, p.stats, p.results, p.errors, dry_run⟩

/-- `SyncPipeline.run`: reject a second concurrent run, move to `running`,
then inside the `try` block validate and execute the waves; any exception
raised inside the `try` (validation `ValueError`, deadlock `RuntimeError`)
is caught, flips the status to `failed` and appends a generic error record;
the result dict is returned in every case.  `KeyboardInterrupt` (external
cancellation) is not modelled.  The returned pair is (final `self`, result
dict). -/
def run (execs : Executors) (p : Pipeline) (dry_run : Bool) :
    Except String (Pipeline × RunResult) :=
  if p.status = .running then .error "Pipeline is already running"
  else
    let p := { p with
      status := .running
      stats := { p.stats with total_steps := (p.steps.length : Int) } }
    let body : Pipeline × Option String :=
      match validatePipeline p with
      | .error e => (p, some e)
      | .ok _ =>
        match runLoop execs (p.steps.length + 1) p [] with
        | (p, some e) => (p, some e)
        | (p, none) =>
          let p := if p.steps.all (fun s =>
              decide (s.status = .completed) || decide (s.status = .pending) ||
                decide (s.status = .skipped))
            then { p with status := .completed }
            else { p with status := .failed }
          (p, none)
    let p := match body with
      | (p, some e) =>
          { p with status := .failed, errors := p.errors ++ [{ error := e }] }
      | (p, none) => p
    .ok (p, mkResult p dry_run)

/-! ## State persistence and resume (`SyncPipeline._handle_interruption`,
`SyncPipeline.resume`) -/

/-- Per-step entry of the persisted `step_states` map. -/
structure SavedStepState where
  status : PipelineStatus
  attempts : Nat
  error : Option String
deriving DecidableEq, Repr

/-- The stats document written into the state file, i.e. `stats.to_dict()`.
Its keys, in dict insertion order, are the seven plain counter fields, the
two wall-clock timestamps, and then the two derived keys `duration` and
`success_rate`.  `includes_derived` records whether the document carries the
derived keys; `to_dict` always writes them. -/
structure StatsDocument where
  total_steps : Int := 0
  completed_steps : Int := 0
  failed_steps : Int := 0
  skipped_steps : Int := 0
  total_items_processed : Int := 0
  successful_items : Int := 0
  failed_items : Int := 0
  includes_derived : Bool := true
deriving DecidableEq, Repr

/-- The stats-restore loop of `resume`: `for key, value in
stats_data.items(): if hasattr(self.stats, key): setattr(self.stats, key,
value)` over a freshly constructed `PipelineStats`.  The seven counters and
the two timestamp fields are plain dataclass fields, so `setattr` succeeds
(the timestamps are wall-clock only and not modelled); `duration` and
`success_rate` are read-only `@property` descriptors of `PipelineStats`, for
which `hasattr` is true but `setattr` raises `AttributeError`. -/
def restoreStats (doc : StatsDocument) : Except String PipelineStats :=
  let st : PipelineStats :=
    { total_steps := doc.total_steps
      completed_steps := doc.completed_steps
      failed_steps := doc.failed_steps
      skipped_steps := doc.skipped_steps
      total_items_processed := doc.total_items_processed
      successful_items := doc.successful_items
      failed_items := doc.failed_items }
  if doc.includes_derived then
    .error "AttributeError: property of PipelineStats object has no setter"
  else .ok st

/-- The persisted state document
`{pipeline_id, status, step_states, results, stats, timestamp}`. -/
structure SavedState where
  pipeline_id : String
  status : PipelineStatus
  step_states : List (String × SavedStepState)
  results : List (String × Option StatsDelta)
  stats : StatsDocument
deriving DecidableEq, Repr

/-- `_handle_interruption`: the state document dumped to
`pipeline_state_{id}.json`; `stats.to_dict()` always includes the derived
keys. -/
def saveState (p : Pipeline) : SavedState :=
  { pipeline_id := p.pipeline_id
    status := p.status
    step_states := p.steps.map (fun s => (s.id, ⟨s.status, s.attempts, s.error⟩))
    results := p.results
    stats :=
      { total_steps := p.stats.total_steps
        completed_steps := p.stats.completed_steps
        failed_steps := p.stats.failed_steps
        skipped_steps := p.stats.skipped_steps
        total_items_processed := p.stats.total_items_processed
        successful_items := p.stats.successful_items
        failed_items := p.stats.failed_items
        includes_derived := true } }

/-- Lookup in the persisted `step_states` map. -/
def lookupSaved (l : List (String × SavedStepState)) (sid : String) :
    Option SavedStepState :=
  (l.find? (fun pr => pr.1 == sid)).map (fun pr => pr.2)

/-- `SyncPipeline.resume`: restore the pipeline id, each registered step's
persisted status/attempts/error, the results dict and the stats document
into the (caller-rebuilt) pipeline, then call `run()`.  An exception raised
while restoring stats propagates to the caller — nothing catches it. -/
def resume (execs : Executors) (p : Pipeline) (state : SavedState) :
    Except String (Pipeline × RunResult) :=
  let p := { p with pipeline_id := state.pipeline_id }
  let p := { p with steps := p.steps.map (fun (s : PipelineStep) =>
    match lookupSaved state.step_states s.id with
    | some ss =>
        { s with status := ss.status, attempts := ss.attempts, error := ss.error }
    | none => s) }
  let p := { p with results := state.results }
  match restoreStats state.stats with
  | .error e => .error e
  | .ok st => run execs { p with stats := st } false

/-! ## Concurrent scheduler (`core/pipeline/async_sync_pipeline.py`) -/

/-- Task-launch phase of `_execute_steps_concurrently` together with the
execution of `_execute_step_async` for every enabled step:
`asyncio.create_task` starts every enabled step's coroutine immediately,
with no dependency gating; each coroutine bumps the attempt counter, runs
the executor, and on failure sets the step to `failed`, records the error,
pushes a DLQ item and re-raises into the stored task result (on success the
step object is left in status `running` — only the dispatch loop marks
completion).  The model fixes the cooperative schedule in which every
launched task has finished by the time the dispatch loop first waits (the
executors are offloaded to the worker pool and finish independently of the
loop; for the single-task input of the theorem below every schedule
coincides).  Returns the updated pipeline and the table of stored task
outcomes. -/
def launchTasks (execs : Executors) (p : Pipeline) :
    Pipeline × List (String × ExecOutcome) :=
  p.steps.foldl
    (fun (acc : Pipeline × List (String × ExecOutcome)) s =>
      if s.enabled then
        let p := acc.1
        let s1 := { s with attempts := s.attempts + 1, status := .running }
        match execs s.id s1.attempts with
        | .ok r => (p.setStep s1, acc.2 ++ [(s.id, .ok r)])
        | .err m =>
            let s2 := { s1 with status := .failed, error := some m }
            let p := p.setStep s2
            let p := { p with
              dlqItems := p.dlqItems ++ [⟨s.id, s.name, m, s1.attempts⟩] }
            (p, acc.2 ++ [(s.id, .err m)])
      else acc)
    (p, [])

/-- One pass of the `while tasks` dispatch loop body over the finished ready
tasks (`for task in done`): `await task` either yields the stored result —
the step is marked `completed`, the result recorded, the stats merged, the
id added to the completed set — or re-raises the stored exception — the
step is marked `failed` and the failed-step counter is incremented, but the
id is *not* added to the completed set. -/
def processDone (outcomes : String → Option ExecOutcome) :
    List String → Pipeline × List String → Pipeline × List String
  | [], acc => acc
  | sid :: rest, acc =>
    let p := acc.1
    let completed := acc.2
    match outcomes sid, p.findStep sid with
    | some (.ok r), some s =>
        let p := p.setStep { s with status := .completed }
        let p := { p with
          results := upsertResult p.results sid r
          stats := mergeDelta p.stats r }
        processDone outcomes rest (p, insertId completed sid)
    | some (.err m), some s =>
        let p := p.setStep { s with status := .failed, error := some m }
        let p := { p with stats :=
          { p.stats with failed_steps := p.stats.failed_steps + 1 } }
        processDone outcomes rest (p, completed)
    | _, _ => processDone outcomes rest (p, completed)

/-- The `while tasks` dispatch loop of `_execute_steps_concurrently`: filter
the remaining task table for tasks whose declared dependencies are in the
completed set; exit with a deadlock warning when none are; otherwise await
the finished ready tasks, process them, and delete from the task table the
tasks that entered the completed set.  A failed task never enters the
completed set, so it is re-awaited on every later pass.  `none` means the
loop has not terminated within `fuel` passes; the theorem below shows this
for *every* `fuel` at its input, i.e. the loop spins forever. -/
def asyncLoop (outcomes : String → Option ExecOutcome) :
    Nat → Pipeline → List String → List String → Option (Pipeline × List String)
  | 0, _, _, _ => none
  | Nat.succ fuel, p, tasks, completed =>
    if tasks.isEmpty then some (p, completed)
    else
      let ready := tasks.filter (fun sid =>
        (graphGet p.graph sid).all (fun d => completed.contains d))
      if ready.isEmpty then some (p, completed)
      else
        match processDone outcomes ready (p, completed) with
        | (p, completed) =>
          asyncLoop outcomes fuel p
            (tasks.filter (fun sid => !completed.contains sid)) completed

/-- `AsyncSyncPipeline.run_async`.  The outer `none` models a call that
never returns because the dispatch loop spins forever (witnessed by holding
for every budget `fuel`).  When the loop exits, the completed-step counter
is recomputed from step statuses, the overall status is derived exactly as
in `run`, and the same result dict shape is returned; an exception raised
before the loop (validation) is caught and recorded just as in `run`. -/
def runAsync (execs : Executors) (p : Pipeline) (fuel : Nat) (dry_run : Bool) :
    Option (Except String (Pipeline × RunResult)) :=
  if p.status = .running then some (.error "Pipeline is already running")
  else
    let p := { p with
      status := .running
      stats := { p.stats with total_steps := (p.steps.length : Int) } }
    match validatePipeline p with
    | .error e =>
        let p := { p with status := .failed, errors := p.errors ++ [{ error := e }] }
        some (.ok (p, mkResult p dry_run))
    | .ok _ =>
      let launched := launchTasks execs p
      let taskIds := (p.steps.filter (fun s => s.enabled)).map (fun s => s.id)
      match asyncLoop
          (fun sid => (launched.2.find? (fun pr => pr.1 == sid)).map (fun pr => pr.2))
          fuel launched.1 taskIds [] with
      | none => none
      | some (p, _) =>
        let p := { p with stats := { p.stats with completed_steps :=
          ((p.steps.filter (fun (s : PipelineStep) =>
            decide (s.status = PipelineStatus.completed))).length : Int) } }
        let p := if p.steps.all (fun (s : PipelineStep) =>
            decide (s.status = PipelineStatus.completed) ||
              decide (s.status = PipelineStatus.pending) ||
              decide (s.status = PipelineStatus.skipped))
          then { p with status := .completed }
          else { p with status := .failed }
        some (.ok (p, mkResult p dry_run))

/-- Abbreviation for the step object after a failed attempt number `k` with
message `m`: attempts bumped to `k`, status `failed`, error recorded. -/
def retryFailedStep (s : PipelineStep) (k : Nat) (m : String) : PipelineStep :=
  { s with attempts := k, status := PipelineStatus.failed, error := some m }

/-- Abbreviation for the error record appended by `_execute_step` for attempt
`k` of step `s`. -/
def stepErrRecord (s : PipelineStep) (m : String) (k : Nat) : ErrorRecord :=
  { step_id := some s.id, step_name := some s.name, error := m, attempt := some k }

/-- Abbreviation for the DLQ item pushed by `_execute_step` for attempt `k`
of step `s`. -/
def stepDlqEntry (s : PipelineStep) (m : String) (k : Nat) : DlqEntry :=
  ⟨s.id, s.name, m, k⟩

/-! ## Concrete fixtures used by the claim theorems -/

/-- C1 fixture: a non-critical step whose executor always raises and which
has no retries left after the first attempt. -/
def c1StepA : PipelineStep := { id := "step_a", name := "A", retries := 0 }

/-- C1 fixture: an independent step (no dependency on `step_a`) whose
executor succeeds. -/
def c1StepB : PipelineStep := { id := "step_b", name := "B" }

/-- C1 fixture: two independent steps, the failing one first in insertion
order. -/
def c1Pipe : Pipeline := { steps := [c1StepA, c1StepB] }

/-- C1 fixture: `step_a` raises on every invocation, every other executor
succeeds. -/
def c1Execs : Executors := fun sid _ =>
  if sid == "step_a" then .err "boom" else .ok none

/-- C2 fixture: a step configured with `retries=2`. -/
def c2Step : PipelineStep := { id := "step_s", name := "S", retries := 2 }

/-- C2 fixture: the pipeline holding only the `retries=2` step. -/
def c2Pipe : Pipeline := { steps := [c2Step] }

/-- C2 fixture: an executor that raises on its first two invocations and
succeeds from the third on — the exact premise of the claim. -/
def c2Execs : Executors := fun _ n => if n ≤ 2 then .err "boom" else .ok none

/-- C3 fixture: first registered step. -/
def c3StepA : PipelineStep := { id := "step_a", name := "A" }

/-- C3 fixture: second registered step, depending on the first. -/
def c3StepB : PipelineStep := { id := "step_b", name := "B", depends_on := ["step_a"] }

/-- C3 fixture: the freshly rebuilt pipeline whose steps the caller
re-registered before resuming. -/
def c3Pipe : Pipeline := { steps := [c3StepA, c3StepB] }

/-- C3 fixture: executors that succeed. -/
def c3Execs : Executors := fun _ _ => .ok none

/-- C3 fixture: the interrupted mid-run pipeline whose state the code
persisted — `step_a` already completed with one attempt, `step_b` still
pending. -/
def c3Mid : Pipeline :=
  { steps := [{ c3StepA with status := .completed, attempts := 1 }, c3StepB]
    status := .cancelled
    stats := { total_steps := 2, completed_steps := 1 }
    results := [("step_a", none)] }

/-- C4 fixture: a single enabled step with no dependencies. -/
def c4Step : PipelineStep := { id := "step_f", name := "F" }

/-- C4 fixture: the pipeline holding only the failing step. -/
def c4Pipe : Pipeline := { steps := [c4Step] }

/-- C4 fixture: an executor that always raises. -/
def c4Execs : Executors := fun _ _ => .err "boom"

/-- C4 fixture: the step object after its task ran and failed: one attempt,
status `failed`, stored error. -/
def c4StepFailed : PipelineStep :=
  { id := "step_f", name := "F", status := .failed, error := some "boom", attempts := 1 }

/-- C4 fixture: the pipeline state handed to the launch phase by
`run_async` (status `running`, total steps counted). -/
def c4Launch : Pipeline :=
  { c4Pipe with
    status := PipelineStatus.running
    stats := { c4Pipe.stats with total_steps := (c4Pipe.steps.length : Int) } }

/-- C4 fixture: the stored task outcomes after the launch phase, looked up
from the task table exactly as the dispatch loop does. -/
def c4Out : String → Option ExecOutcome := fun sid =>
  ((launchTasks c4Execs c4Launch).2.find? (fun pr => pr.1 == sid)).map (fun pr => pr.2)

/-- C5 fixture: step depending on `step_y`. -/
def c5StepX : PipelineStep := { id := "step_x", name := "X", depends_on := ["step_y"] }

/-- C5 fixture: step depending back on `step_x`, closing the cycle. -/
def c5StepY : PipelineStep := { id := "step_y", name := "Y", depends_on := ["step_x"] }

/-- C5 fixture: a pipeline whose dependency graph is the two-cycle
`step_x → step_y → step_x`. -/
def c5Pipe : Pipeline := { steps := [c5StepX, c5StepY] }

/-- C5 fixture: a pipeline that is already running. -/
def c5Running : Pipeline := { c5Pipe with status := .running }

/-- C5 fixture: executors that succeed (they are never reached). -/
def c5Execs : Executors := fun _ _ => .ok none

/-- C6 fixture: timestamped payloads 0..98 (the first 99 adds). -/
def c6L1 : List (Nat × Nat) := (List.range 99).map (fun i => (i, i))

/-- C6 fixture: timestamped payloads 100..198 (adds 101..199). -/
def c6L2 : List (Nat × Nat) := (List.range 99).map (fun i => (i + 100, i + 100))

/-- C6 fixture: timestamped payloads 200..249 (the last 50 adds). -/
def c6L3 : List (Nat × Nat) := (List.range 50).map (fun i => (i + 200, i + 200))

/-- C6 fixture: all 250 adds in order; the 100th happens at clock 99 and the
200th at clock 199. -/
def c6Items : List (Nat × Nat) :=
  ((c6L1 ++ [(99, 99)]) ++ (c6L2 ++ [(199, 199)])) ++ c6L3

/-- C9 fixture: one of two processed items succeeded. -/
def c9Stats : PipelineStats := { total_items_processed := 2, successful_items := 1 }

/-- C9 fixture: a stats record with no processed items. -/
def c9Zero : PipelineStats := {}

/-- C10 fixture: a handler whose in-memory batch holds 99 items. -/
def c10Handler : DLQHandler Nat :=
  { entity_type := "products"
    files := []
    current_batch := (List.range 99).map (fun i => ⟨i, 0, "products", 0⟩) }

/-! ## Claim C9: success rate -/

/-- Claim C9, counterexample: with 1 successful item out of 2 processed, the
code's `success_rate` is 50 (a percentage), not the ratio 1/2 the claim
states — `success_rate` multiplies the quotient by 100. -/
theorem C9_success_rate_counterexample :
    c9Stats.total_items_processed ≠ 0 ∧
    c9Stats.success_rate = 50 ∧
    (c9Stats.successful_items : ℚ) / (c9Stats.total_items_processed : ℚ) = 1 / 2 ∧
    c9Stats.success_rate ≠
      (c9Stats.successful_items : ℚ) / (c9Stats.total_items_processed : ℚ) := by
  refine ⟨by decide, ?_, ?_, ?_⟩ <;>
    norm_num [c9Stats, PipelineStats.success_rate]

/-- Claim C9 (amended): for every stats record the derived success rate is 0
when the total processed item count is 0, and otherwise equals successful
items divided by total processed items, expressed as a percentage (the
quotient times 100). -/
theorem C9_success_rate_spec (s : PipelineStats) :
    (s.total_items_processed = 0 → s.success_rate = 0) ∧
    (s.total_items_processed ≠ 0 →
      s.success_rate =
        (s.successful_items : ℚ) / (s.total_items_processed : ℚ) * 100) := by
  constructor <;> intro h <;> simp [PipelineStats.success_rate, h]

/-- Witness for C9: the amended statement evaluated at a record with no
items and at the 1-of-2 record. -/
theorem C9_success_rate_witness :
    c9Zero.success_rate = 0 ∧
    c9Stats.success_rate =
      (c9Stats.successful_items : ℚ) / (c9Stats.total_items_processed : ℚ) * 100 :=
  ⟨(C9_success_rate_spec c9Zero).1 rfl, (C9_success_rate_spec c9Stats).2 (by decide)⟩

/-! ## Claim C10: DLQ batch invariant -/

/-- Claim C10: provided the triggered flush write succeeds, after every
`add_item` call the in-memory batch holds strictly fewer than 100 items; a
flush triggered by `add_item` writes the entire current batch — exactly 100
items — to the file and empties the in-memory batch; and no item is both
retained in memory and present in a file the call wrote. -/
theorem C10_dlq_batch_invariant {α : Type} (h : DLQHandler α) (x : α) (now : Nat)
    (hlt : h.current_batch.length < 100) :
    (h.add_item true now x).current_batch.length < 100 ∧
    (h.current_batch.length = 99 →
      (h.add_item true now x).files =
        fsWrite h.files ⟨h.entity_type, now⟩
          (h.current_batch ++ [⟨x, now, h.entity_type, now⟩]) ∧
      (h.current_batch ++ [(⟨x, now, h.entity_type, now⟩ : DlqItem α)]).length = 100 ∧
      (h.add_item true now x).current_batch = []) ∧
    (∀ nm cs, (nm, cs) ∈ (h.add_item true now x).files →
      (nm, cs) ∈ h.files ∨
        ∀ it ∈ (h.add_item true now x).current_batch, it ∉ cs) := by
  by_cases h99 : h.current_batch.length = 99
  · have hflush : h.add_item true now x =
        { h with
          files := fsWrite h.files ⟨h.entity_type, now⟩
            (h.current_batch ++ [⟨x, now, h.entity_type, now⟩])
          current_batch := [] } := by
      simp [DLQHandler.add_item, DLQHandler.flushBatch, dlqBatchSize, h99]
    rw [hflush]
    refine ⟨by simp, fun _ => ⟨rfl, by simp [h99], rfl⟩, ?_⟩
    intro nm cs _
    right
    intro it hit
    simp at hit
  · have hni : h.add_item true now x =
        { h with current_batch := h.current_batch ++ [⟨x, now, h.entity_type, now⟩] } := by
      have hcond : ¬ dlqBatchSize ≤ h.current_batch.length + 1 := by
        simp only [dlqBatchSize]
        omega
      simp [DLQHandler.add_item, hcond]
    rw [hni]
    refine ⟨by simp; omega, fun h9 => absurd h9 h99, ?_⟩
    intro nm cs hmem
    left
    exact hmem

/-- Witness for C10: the invariant applied to a handler whose batch holds 99
items — the 100th add flushes and leaves the batch empty (hence below
100). -/
theorem C10_dlq_batch_invariant_witness :
    (c10Handler.add_item true 5 7).current_batch.length < 100 ∧
    (c10Handler.add_item true 5 7).current_batch = [] := by
  have h := C10_dlq_batch_invariant c10Handler 7 5 (by simp [c10Handler])
  exact ⟨h.1, (h.2.1 (by simp [c10Handler])).2.2⟩

/-! ## Claim C6: DLQ round trip -/

/-- Splitting a sequence of `add_item` calls. -/
theorem addAll_append {α : Type} (h : DLQHandler α) (l1 l2 : List (Nat × α)) :
    addAll h (l1 ++ l2) = addAll (addAll h l1) l2 :=
  List.foldl_append _ _ _ _

/-- A run of adds that keeps the batch strictly below the flush threshold
only appends the augmented items to the in-memory batch. -/
theorem addAll_small {α : Type} (h : DLQHandler α) (l : List (Nat × α))
    (hlen : h.current_batch.length + l.length < 100) :
    addAll h l =
      { h with current_batch := h.current_batch ++ l.map (augment h.entity_type) } := by
  induction l generalizing h with
  | nil => simp [addAll]
  | cons pr t ih =>
    have hcond : ¬ dlqBatchSize ≤ h.current_batch.length + 1 := by
      simp only [dlqBatchSize]
      simp only [List.length_cons] at hlen
      omega
    have hstep : h.add_item true pr.1 pr.2 =
        { h with current_batch := h.current_batch ++ [augment h.entity_type pr] } := by
      simp [DLQHandler.add_item, hcond, augment]
    have hrec : addAll h (pr :: t) = addAll (h.add_item true pr.1 pr.2) t := rfl
    rw [hrec, hstep, ih]
    · simp only [List.map_cons, List.append_assoc, List.singleton_append]
    · simp only [List.length_append, List.length_cons, List.length_map,
        List.length_nil] at hlen ⊢
      omega

/-- The 100th consecutive add on an initially empty batch flushes the whole
batch of 100 augmented items to a file stamped with that add's clock
reading. -/
theorem addAll_flush {α : Type} (h : DLQHandler α) (l : List (Nat × α)) (pr : Nat × α)
    (hb : h.current_batch = []) (hlen : l.length = 99) :
    addAll h (l ++ [pr]) =
      { h with
        files := fsWrite h.files ⟨h.entity_type, pr.1⟩
          ((l ++ [pr]).map (augment h.entity_type))
        current_batch := [] } := by
  rw [addAll_append]
  rw [addAll_small h l (by rw [hb, hlen]; simp)]
  have hlen' : (h.current_batch ++ l.map (augment h.entity_type)).length = 99 := by
    simp [hb, hlen]
  have hcond : dlqBatchSize ≤
      ((h.current_batch ++ l.map (augment h.entity_type)) ++
        [augment h.entity_type pr]).length := by
    simp only [List.length_append, List.length_cons, List.length_nil, hlen']
    simp [dlqBatchSize]
  simp only [addAll, List.foldl_cons, List.foldl_nil]
  simp only [DLQHandler.add_item, DLQHandler.flushBatch]
  rw [if_pos]
  · simp [hb, augment]
  · simpa [augment] using hcond

/-- Claim C6: starting from an empty DLQ for an entity, 250 consecutive
`add_item` calls — provided the clock readings at the 100th and the 200th
call differ, so the two flush files get distinct names — produce exactly two
flushed files of 100 items each plus 50 items retained in the in-memory
batch; `get_count` afterwards returns 250; and every stored item carries the
added `dlq_timestamp`, `entity_type` and `batch_id` metadata (it is the
`augment`ation of the corresponding call). -/
theorem C6_dlq_roundtrip {α : Type} (e : String) (l1 l2 l3 : List (Nat × α))
    (p1 p2 : Nat × α)
    (h1 : l1.length = 99) (h2 : l2.length = 99) (h3 : l3.length = 50)
    (hts : p1.1 ≠ p2.1) :
    addAll (mkDLQ α e) (((l1 ++ [p1]) ++ (l2 ++ [p2])) ++ l3) =
      { entity_type := e
        files := [(⟨e, p1.1⟩, (l1 ++ [p1]).map (augment e)),
                  (⟨e, p2.1⟩, (l2 ++ [p2]).map (augment e))]
        current_batch := l3.map (augment e) } ∧
    ((l1 ++ [p1]).map (augment e)).length = 100 ∧
    ((l2 ++ [p2]).map (augment e)).length = 100 ∧
    (l3.map (augment e)).length = 50 ∧
    (addAll (mkDLQ α e) (((l1 ++ [p1]) ++ (l2 ++ [p2])) ++ l3)).get_count = 250 ∧
    (∀ fc, fc ∈ (addAll (mkDLQ α e) (((l1 ++ [p1]) ++ (l2 ++ [p2])) ++ l3)).files →
      ∀ it, it ∈ fc.2 → it.entity_type = e) ∧
    (∀ it, it ∈ (addAll (mkDLQ α e) (((l1 ++ [p1]) ++ (l2 ++ [p2])) ++ l3)).current_batch →
      it.entity_type = e) := by
  have key : addAll (mkDLQ α e) (((l1 ++ [p1]) ++ (l2 ++ [p2])) ++ l3) =
      { entity_type := e
        files := [(⟨e, p1.1⟩, (l1 ++ [p1]).map (augment e)),
                  (⟨e, p2.1⟩, (l2 ++ [p2]).map (augment e))]
        current_batch := l3.map (augment e) } := by
    rw [addAll_append, addAll_append]
    rw [addAll_flush (mkDLQ α e) l1 p1 rfl h1]
    rw [addAll_flush _ l2 p2 rfl h2]
    rw [addAll_small _ l3 (by simp [h3])]
    have hne : ¬ ((⟨e, p1.1⟩ : DlqFileName) = ⟨e, p2.1⟩) := by
      intro hcon
      exact hts (congrArg DlqFileName.stamp hcon)
    have hne' : ¬ ((⟨e, p2.1⟩ : DlqFileName) = ⟨e, p1.1⟩) := by
      intro hcon
      exact hts (congrArg DlqFileName.stamp hcon).symm
    simp [mkDLQ, fsWrite, hne, hne']
  refine ⟨key, by simp [h1], by simp [h2], by simp [h3], ?_, ?_, ?_⟩
  · rw [key]
    simp [DLQHandler.get_count, h1, h2, h3]
  · rw [key]
    intro fc hfc it hit
    simp only [List.mem_cons, List.not_mem_nil, or_false] at hfc
    rcases hfc with rfl | rfl <;>
      · simp only [List.mem_map] at hit
        obtain ⟨pr, _, hpr⟩ := hit
        rw [← hpr]
        rfl
  · rw [key]
    intro it hit
    simp only [List.mem_map] at hit
    obtain ⟨pr, _, hpr⟩ := hit
    rw [← hpr]
    rfl

/-- Witness for C6: 250 concrete adds (clock reading `i` at the `i`-th add)
on an empty `products` DLQ. -/
theorem C6_dlq_roundtrip_witness :
    (addAll (mkDLQ Nat "products") c6Items).get_count = 250 ∧
    (addAll (mkDLQ Nat "products") c6Items).current_batch.length = 50 ∧
    (addAll (mkDLQ Nat "products") c6Items).files.length = 2 := by
  have h := C6_dlq_roundtrip "products" c6L1 c6L2 c6L3 (99, 99) (199, 199)
    (by simp [c6L1]) (by simp [c6L2]) (by simp [c6L3]) (by decide)
  refine ⟨h.2.2.2.2.1, ?_, ?_⟩
  · show (addAll (mkDLQ Nat "products")
      (((c6L1 ++ [(99, 99)]) ++ (c6L2 ++ [(199, 199)])) ++ c6L3)).current_batch.length = 50
    rw [h.1]
    exact h.2.2.2.1
  · show (addAll (mkDLQ Nat "products")
      (((c6L1 ++ [(99, 99)]) ++ (c6L2 ++ [(199, 199)])) ++ c6L3)).files.length = 2
    rw [h.1]
    rfl

/-! ## Claim C8: ready-step computation -/

/-- Bridge between the Bool-valued `contains` used by the embedded code and
list membership. -/
theorem contains_iff (l : List String) (a : String) : l.contains a = true ↔ a ∈ l :=
  List.elem_iff

/-- Stable insertion permutes. -/
theorem insertByKey_perm (key : String → Nat) (x : String) (l : List String) :
    List.Perm (insertByKey key x l) (x :: l) := by
  induction l with
  | nil => exact List.Perm.refl _
  | cons y ys ih =>
    by_cases hk : key y < key x
    · simp only [insertByKey, if_pos hk]
      exact (List.Perm.cons y ih).trans (List.Perm.swap x y ys)
    · simp only [insertByKey, if_neg hk]
      exact List.Perm.refl _

/-- The stable sort permutes. -/
theorem sortByKey_perm (key : String → Nat) (l : List String) :
    List.Perm (sortByKey key l) l := by
  induction l with
  | nil => exact List.Perm.refl _
  | cons x xs ih =>
    exact (insertByKey_perm key x (sortByKey key xs)).trans (List.Perm.cons x ih)

/-- Stable insertion preserves ascending key order. -/
theorem insertByKey_pairwise (key : String → Nat) (x : String) (l : List String)
    (h : l.Pairwise (fun a b => key a ≤ key b)) :
    (insertByKey key x l).Pairwise (fun a b => key a ≤ key b) := by
  induction l with
  | nil => simp [insertByKey]
  | cons y ys ih =>
    rcases List.pairwise_cons.mp h with ⟨hy, hys⟩
    by_cases hk : key y < key x
    · simp only [insertByKey, if_pos hk]
      refine List.pairwise_cons.mpr ⟨?_, ih hys⟩
      intro b hb
      have hb' : b ∈ x :: ys := (insertByKey_perm key x ys).mem_iff.mp hb
      rcases List.mem_cons.mp hb' with rfl | hbys
      · exact le_of_lt hk
      · exact hy b hbys
    · simp only [insertByKey, if_neg hk]
      refine List.pairwise_cons.mpr ⟨?_, List.pairwise_cons.mpr ⟨hy, hys⟩⟩
      intro b hb
      rcases List.mem_cons.mp hb with rfl | hbys
      · exact Nat.le_of_not_lt hk
      · exact le_trans (Nat.le_of_not_lt hk) (hy b hbys)

/-- The stable sort yields ascending key order. -/
theorem sortByKey_pairwise (key : String → Nat) (l : List String) :
    (sortByKey key l).Pairwise (fun a b => key a ≤ key b) := by
  induction l with
  | nil => simp [sortByKey]
  | cons x xs ih => exact insertByKey_pairwise key x _ ih

/-- Claim C8: for every snapshot of executed step ids, `_get_ready_steps`
returns exactly (as a permutation, hence with multiplicity) the steps not in
the executed set whose entire dependency list is a subset of the executed
set, ordered by ascending dependency count. -/
theorem C8_ready_steps (p : Pipeline) (executed : List String) :
    List.Perm (getReadySteps p executed)
      ((p.steps.filter (fun s => !executed.contains s.id &&
        (graphGet p.graph s.id).all (fun d => executed.contains d))).map
        (fun s => s.id)) ∧
    (getReadySteps p executed).Pairwise
      (fun a b => depCount p a ≤ depCount p b) ∧
    (∀ sid, sid ∈ getReadySteps p executed ↔
      ∃ s, s ∈ p.steps ∧ s.id = sid ∧ ¬ sid ∈ executed ∧
        ∀ d ∈ graphGet p.graph sid, d ∈ executed) := by
  refine ⟨sortByKey_perm _ _, sortByKey_pairwise _ _, ?_⟩
  intro sid
  simp only [getReadySteps]
  rw [(sortByKey_perm _ _).mem_iff]
  simp only [List.mem_map, List.mem_filter, Bool.and_eq_true, Bool.not_eq_true',
    List.all_eq_true]
  constructor
  · rintro ⟨s, ⟨hs, hnc, hall⟩, rfl⟩
    refine ⟨s, hs, rfl, ?_, ?_⟩
    · intro hmem
      rw [← contains_iff executed s.id] at hmem
      rw [hnc] at hmem
      cases hmem
    · intro d hd
      exact (contains_iff executed d).mp (hall d hd)
  · rintro ⟨s, hs, rfl, hnm, hall⟩
    refine ⟨s, ⟨hs, ?_, ?_⟩, rfl⟩
    · rcases hcon : executed.contains s.id with _ | _
      · rfl
      · exact absurd ((contains_iff executed s.id).mp hcon) hnm
    · intro d hd
      exact (contains_iff executed d).mpr (hall d hd)

/-! ## Claim C1: non-critical failure and the wave loop -/

/-- Claim C1 is contradicted by the code (a code bug: the log line in
`_handle_step_failure` says "Non-critical step failed, continuing pipeline"
while the control flow halts).  At this input the non-critical step `step_a`
(not in the critical set) exhausts its retries; the `break` ends the wave
and the `any(... FAILED ...)` check then stops the outer loop, so the
independent enabled step `step_b` — with no dependency on `step_a` — never
executes: it stays `pending` with 0 attempts and no recorded result instead
of reaching its normal completed outcome, and the final status is `failed`
although the failed step was not critical. -/
theorem C1_non_critical_failure_halts :
    criticalSteps.contains "step_a" = false ∧
    ((run c1Execs c1Pipe false).toOption.map (fun pr =>
      ((pr.1.findStep "step_a").map (fun s => (s.status, s.attempts)),
       (pr.1.findStep "step_b").map (fun s => (s.status, s.attempts)),
       pr.1.status,
       pr.1.results.map (fun q => q.1)))) =
      some (some (.failed, 1), some (.pending, 0), .failed, []) := by
  constructor <;> rfl

/-! ## Claim C2: retry budget -/

/-- Claim C2, counterexample: a step with `retries=2` whose executor fails
on its first two invocations and would succeed on the third ends the run
`failed` with `attempts == 2` — the wave body retries exactly once, so the
third invocation never happens and the claimed `(completed, 3)` outcome is
not reached.  The two DLQ items and two error records (one per failed
attempt) and the single `2^1`-second backoff sleep are also recorded. -/
theorem C2_retry_counterexample :
    ((run c2Execs c2Pipe false).toOption.map (fun pr =>
      ((pr.1.findStep "step_s").map (fun s => (s.status, s.attempts)),
       pr.1.errors.length, pr.1.dlqItems.length, pr.1.sleeps))) =
      some (some (.failed, 2), 2, 2, [2]) ∧
    c2Execs "step_s" 3 = .ok none ∧
    ((run c2Execs c2Pipe false).toOption.map (fun pr =>
      (pr.1.findStep "step_s").map (fun s => (s.status, s.attempts)))) ≠
      some (some (.completed, 3)) := by
  refine ⟨rfl, rfl, ?_⟩
  decide

/-! ## Claim C3: resume -/

/-- Claim C3 is contradicted by the code (a code bug): resuming from a state
file that the code itself persisted (`_handle_interruption` saves
`stats.to_dict()`, which always contains the derived keys `duration` and
`success_rate`) raises `AttributeError` while restoring stats — the restore
loop calls `setattr` for every key that passes `hasattr`, and the two
derived keys are read-only properties — so `run` is never re-invoked and no
step state survives the call, let alone the claimed skip of completed
steps. -/
theorem C3_resume_crashes :
    resume c3Execs c3Pipe (saveState c3Mid) =
      .error "AttributeError: property of PipelineStats object has no setter" := by
  rfl

/-! ## Claim C5: configuration errors and the result contract -/

/-- Claim C5, counterexample: on a pipeline whose dependency graph is the
two-cycle `step_x ↔ step_y`, `run` does not raise — the `ValueError` from
validation is caught by the blanket `except` inside `run` — and instead
returns the result mapping with status `failed`, one generic error record,
and no step executed. -/
theorem C5_config_error_counterexample :
    (run c5Execs c5Pipe false).isOk = true ∧
    ((run c5Execs c5Pipe false).toOption.map (fun pr =>
      (pr.2.status, pr.2.errors,
       pr.1.steps.map (fun s => (s.status, s.attempts))))) =
      some (.failed, [{ error := "Pipeline has circular dependencies" }],
        [(.pending, 0), (.pending, 0)]) := by
  constructor <;> rfl

/-! ## Claim C2 (amended): retry behaviour of the wave body -/

/-- Auxiliary: committing a mutated step and then looking its id up yields
the mutated object (when a step with that id existed). -/
theorem find_set_aux (l : List PipelineStep) (t : PipelineStep)
    (hs : (l.find? (fun s => s.id == t.id)).isSome = true) :
    (l.map (fun x => if x.id == t.id then t else x)).find? (fun s => s.id == t.id) = some t := by
  induction l with
  | nil => simp at hs
  | cons x xs ih =>
    by_cases hx : (x.id == t.id) = true
    · rw [List.map_cons, if_pos hx]
      exact List.find?_cons_of_pos _ (by simp)
    · have hxf : (x.id == t.id) = false := by simpa using hx
      rw [List.map_cons, if_neg hx]
      simp only [List.find?_cons, hxf] at hs ⊢
      exact ih hs

/-- Committing a mutated step object makes `findStep` return it. -/
theorem findStep_setStep (p : Pipeline) (t : PipelineStep)
    (hs : (p.findStep t.id).isSome = true) :
    (p.setStep t).findStep t.id = some t :=
  find_set_aux p.steps t hs

/-- `_handle_step_failure` only touches the overall status, not the steps. -/
theorem findStep_handleStepFailure (p : Pipeline) (sid sid' : String) :
    (handleStepFailure p sid).findStep sid' = p.findStep sid' := by
  unfold handleStepFailure
  split <;> rfl

/-- `_handle_step_failure` leaves the error list unchanged. -/
theorem handleStepFailure_errors (p : Pipeline) (sid : String) :
    (handleStepFailure p sid).errors = p.errors := by
  unfold handleStepFailure
  split <;> rfl

/-- `_handle_step_failure` leaves the DLQ unchanged. -/
theorem handleStepFailure_dlqItems (p : Pipeline) (sid : String) :
    (handleStepFailure p sid).dlqItems = p.dlqItems := by
  unfold handleStepFailure
  split <;> rfl

/-- `_handle_step_failure` does not sleep. -/
theorem handleStepFailure_sleeps (p : Pipeline) (sid : String) :
    (handleStepFailure p sid).sleeps = p.sleeps := by
  unfold handleStepFailure
  split <;> rfl

/-- Claim C2 (amended): a ready enabled step with `retries = 2` whose
executor fails on its first two invocations is executed exactly twice within
the wave — after the first failure the scheduler sleeps `2 ** attempts = 2`
seconds and retries once; after the second failure the step is handed to
`_handle_step_failure` and the wave stops (the `true` break flag; the
remaining ready steps and the executed set are untouched).  The step ends
`failed` with `attempts == 2`, exactly two error records and two DLQ items
(one per failed attempt) are appended for it, and the third invocation never
happens.  The in-wave retry is applied at most once regardless of the
remaining retry budget. -/
theorem C2_retry_behaviour (execs : Executors) (p : Pipeline)
    (rest executed : List String) (s : PipelineStep) (m1 m2 : String)
    (hfind : p.findStep s.id = some s)
    (hret : s.retries = 2) (hatt : s.attempts = 0) (hen : s.enabled = true)
    (h1 : execs s.id 1 = .err m1) (h2 : execs s.id 2 = .err m2) :
    ∃ pf, processReady execs (s.id :: rest) p executed = (pf, executed, true) ∧
      pf.findStep s.id = some (retryFailedStep s 2 m2) ∧
      pf.errors = p.errors ++ [stepErrRecord s m1 1, stepErrRecord s m2 2] ∧
      pf.dlqItems = p.dlqItems ++ [stepDlqEntry s m1 1, stepDlqEntry s m2 2] ∧
      pf.sleeps = p.sleeps ++ [2 ^ 1] ∧
      (criticalSteps.contains s.id = false → pf.status = p.status) := by
  have hnen : (!s.enabled) = false := by rw [hen]; rfl
  have e1 : ∀ q : Pipeline, executeStep execs q s =
      (false,
       { q.setStep (retryFailedStep s 1 m1) with
         errors := q.errors ++ [stepErrRecord s m1 1]
         dlqItems := q.dlqItems ++ [stepDlqEntry s m1 1] },
       retryFailedStep s 1 m1) := by
    intro q
    simp only [executeStep, hatt, zero_add, h1]
    rfl
  have h2' : execs s.id (1 + 1) = .err m2 := h2
  have e2 : ∀ q : Pipeline, executeStep execs q (retryFailedStep s 1 m1) =
      (false,
       { q.setStep (retryFailedStep s 2 m2) with
         errors := q.errors ++ [stepErrRecord s m2 2]
         dlqItems := q.dlqItems ++ [stepDlqEntry s m2 2] },
       retryFailedStep s 2 m2) := by
    intro q
    simp only [executeStep, retryFailedStep, h2']
    rfl
  have hcond : ((retryFailedStep s 1 m1).attempts < (retryFailedStep s 1 m1).retries) = True := by
    simp [retryFailedStep, hret]
  have hrun : processReady execs (s.id :: rest) p executed =
      (handleStepFailure
        (let pA : Pipeline :=
          { p.setStep (retryFailedStep s 1 m1) with
            errors := p.errors ++ [stepErrRecord s m1 1]
            dlqItems := p.dlqItems ++ [stepDlqEntry s m1 1] }
         let pA1 : Pipeline :=
          { pA with stats := { pA.stats with failed_steps := pA.stats.failed_steps + 1 } }
         let pA2 : Pipeline := { pA1 with sleeps := pA1.sleeps ++ [2 ^ (retryFailedStep s 1 m1).attempts] }
         { pA2.setStep (retryFailedStep s 2 m2) with
            errors := pA2.errors ++ [stepErrRecord s m2 2]
            dlqItems := pA2.dlqItems ++ [stepDlqEntry s m2 2] })
        s.id, executed, true) := by
    simp only [processReady, hfind, hnen, Bool.false_eq_true, if_false, e1, e2, hcond, if_true]
  refine ⟨_, hrun, ?_, ?_, ?_, ?_, ?_⟩
  · rw [findStep_handleStepFailure]
    have h0 : (p.findStep (retryFailedStep s 1 m1).id).isSome = true := by
      rw [show p.findStep (retryFailedStep s 1 m1).id = some s from hfind]
      rfl
    have hA := findStep_setStep p (retryFailedStep s 1 m1) h0
    have h0' : ((p.setStep (retryFailedStep s 1 m1)).findStep
        (retryFailedStep s 2 m2).id).isSome = true := by
      rw [show (p.setStep (retryFailedStep s 1 m1)).findStep (retryFailedStep s 2 m2).id =
        some (retryFailedStep s 1 m1) from hA]
      rfl
    exact findStep_setStep _ _ h0'
  · rw [handleStepFailure_errors]
    show (p.errors ++ [stepErrRecord s m1 1]) ++ [stepErrRecord s m2 2] = _
    rw [List.append_assoc]
    rfl
  · rw [handleStepFailure_dlqItems]
    show (p.dlqItems ++ [stepDlqEntry s m1 1]) ++ [stepDlqEntry s m2 2] = _
    rw [List.append_assoc]
    rfl
  · rw [handleStepFailure_sleeps]
    show p.sleeps ++ [2 ^ (retryFailedStep s 1 m1).attempts] = _
    rfl
  · intro hc
    unfold handleStepFailure
    rw [if_neg]
    · rfl
    · intro hcon
      rw [hc] at hcon
      cases hcon

/-- Witness for the amended C2: the wave body evaluated on the concrete
single-step pipeline with the fails-twice-succeeds-third executor. -/
theorem C2_retry_behaviour_witness :
    ∃ pf, processReady c2Execs (c2Step.id :: []) c2Pipe [] = (pf, [], true) ∧
      pf.findStep c2Step.id = some (retryFailedStep c2Step 2 "boom") ∧
      pf.errors = c2Pipe.errors ++
        [stepErrRecord c2Step "boom" 1, stepErrRecord c2Step "boom" 2] ∧
      pf.dlqItems = c2Pipe.dlqItems ++
        [stepDlqEntry c2Step "boom" 1, stepDlqEntry c2Step "boom" 2] ∧
      pf.sleeps = c2Pipe.sleeps ++ [2 ^ 1] ∧
      (criticalSteps.contains c2Step.id = false → pf.status = c2Pipe.status) :=
  C2_retry_behaviour c2Execs c2Pipe [] [] c2Step "boom" "boom" rfl rfl rfl rfl rfl rfl

/-! ## Claim C5 (amended): error contract of `run` -/

/-- Updating status and stats leaves validation unchanged — it only reads
the dependency graph, which is derived from the steps. -/
theorem validatePipeline_update (p : Pipeline) (st : PipelineStatus)
    (stats : PipelineStats) :
    validatePipeline { p with status := st, stats := stats } = validatePipeline p :=
  rfl

/-- Claim C5 (amended): `run` raises only when called while the pipeline is
already running.  A configuration error detected by validation (cyclic
graph or unresolved dependency reference) does not propagate: the blanket
`except` inside `run` catches it before any step executes, and `run`
returns the result mapping `{pipeline_id, status, stats, results, errors,
dry_run}` with status `failed`, every step untouched, and a generic error
record appended.  (A duplicate step id raises from `add_step`, at
registration time.)  Executor failures never raise either — `_execute_step`
catches them (claims C1/C2 exercise that path). -/
theorem C5_run_error_contract (execs : Executors) (p : Pipeline) (d : Bool) :
    (p.status = .running → run execs p d = .error "Pipeline is already running") ∧
    (∀ e, p.status ≠ .running → validatePipeline p = .error e →
      ∃ pf, run execs p d = .ok (pf, mkResult pf d) ∧
        pf.status = .failed ∧
        pf.steps = p.steps ∧
        pf.results = p.results ∧
        pf.errors = p.errors ++ [{ error := e }]) := by
  constructor
  · intro h
    simp [run, h]
  · intro e hne hv
    have hv' : validatePipeline { p with
        status := PipelineStatus.running
        stats := { p.stats with total_steps := (p.steps.length : Int) } } = .error e := by
      rw [validatePipeline_update]
      exact hv
    refine ⟨{ p with
      status := .failed
      stats := { p.stats with total_steps := (p.steps.length : Int) }
      errors := p.errors ++ [{ error := e }] }, ?_, rfl, rfl, rfl, rfl⟩
    simp only [run, if_neg hne, hv']

/-- Witness for the amended C5: an already-running pipeline raises; the
concrete cyclic pipeline is caught and reported in the returned mapping. -/
theorem C5_run_error_contract_witness :
    run c5Execs c5Running false = .error "Pipeline is already running" ∧
    ∃ pf, run c5Execs c5Pipe false = .ok (pf, mkResult pf false) ∧
      pf.status = .failed ∧
      pf.steps = c5Pipe.steps ∧
      pf.results = c5Pipe.results ∧
      pf.errors = c5Pipe.errors ++ [{ error := "Pipeline has circular dependencies" }] :=
  ⟨(C5_run_error_contract c5Execs c5Running false).1 rfl,
   (C5_run_error_contract c5Execs c5Pipe false).2
     "Pipeline has circular dependencies" (by decide) rfl⟩

/-! ## Claim C4: concurrent scheduler on a failing step -/

/-- One dispatch pass over the single failed task leaves the task table,
the completed set and the step list unchanged (only the failed-step counter
grows), so the `while tasks` loop of `_execute_steps_concurrently` never
terminates, whatever iteration budget it is given. -/
theorem c4_loop_spins (fuel : Nat) : ∀ p : Pipeline, p.steps = [c4StepFailed] →
    asyncLoop c4Out fuel p ["step_f"] [] = none := by
  induction fuel with
  | zero =>
    intro p _
    rfl
  | succ n ih =>
    intro p hp
    have hg : graphGet p.graph "step_f" = [] := by
      simp [Pipeline.graph, hp, graphGet, c4StepFailed]
    have hfind : p.findStep "step_f" = some c4StepFailed := by
      simp [Pipeline.findStep, hp, c4StepFailed]
    have hco : c4Out "step_f" = some (.err "boom") := rfl
    have hsame : ({ c4StepFailed with
        status := PipelineStatus.failed
        error := some "boom" } : PipelineStep) = c4StepFailed := rfl
    simp only [asyncLoop, List.isEmpty_cons, Bool.false_eq_true, if_false,
      List.filter_cons, hg, List.all_nil, List.filter_nil, if_true,
      processDone, hco, hfind, hsame]
    apply ih
    simp [Pipeline.setStep, hp]

/-- `run_async` reduced to its dispatch loop: when the pipeline is not
already running, validation passes, and the dispatch loop never terminates,
the `run_async` call never returns. -/
theorem runAsync_eq_none (execs : Executors) (p : Pipeline) (fuel : Nat) (d : Bool)
    (hst : ¬ p.status = PipelineStatus.running)
    (hv : validatePipeline { p with
      status := PipelineStatus.running
      stats := { p.stats with total_steps := (p.steps.length : Int) } } = .ok ())
    (hl : asyncLoop
      (fun sid => ((launchTasks execs { p with
        status := PipelineStatus.running
        stats := { p.stats with total_steps := (p.steps.length : Int) } }).2.find?
          (fun pr => pr.1 == sid)).map (fun pr => pr.2))
      fuel
      (launchTasks execs { p with
        status := PipelineStatus.running
        stats := { p.stats with total_steps := (p.steps.length : Int) } }).1
      ((p.steps.filter (fun s => s.enabled)).map (fun s => s.id))
      [] = none) :
    runAsync execs p fuel d = none := by
  simp only [runAsync, if_neg hst, hv, hl]

/-- Claim C4 is contradicted by the code (a code bug): when an enabled
step's executor fails, the launch phase does mark the step `failed` and
appends exactly one DLQ item, and no step-level retry is applied — but the
failed task is never added to the completed set and hence never removed
from the task table, so the dispatch loop re-awaits it forever (the stored
exception re-raises and the failed-step counter is bumped on every pass):
`run_async` never returns at all, for every loop budget, instead of
returning the `run`-shaped result object with status `failed` that the
claim describes. -/
theorem C4_async_failed_step_loops_forever :
    (∀ fuel, runAsync c4Execs c4Pipe fuel false = none) ∧
    (launchTasks c4Execs c4Launch).1.dlqItems = [⟨"step_f", "F", "boom", 1⟩] ∧
    (launchTasks c4Execs c4Launch).1.findStep "step_f" = some c4StepFailed := by
  refine ⟨?_, rfl, rfl⟩
  intro fuel
  apply runAsync_eq_none
  · decide
  · rfl
  · exact c4_loop_spins fuel _ rfl

/-! ## Claim C7: dependency-graph validation -/

/-- Every id in an adjacency list belongs to the node pool. -/
theorem graphGet_subset_pool (g : List (String × List String)) (a n : String)
    (h : n ∈ graphGet g a) : n ∈ nodePool g := by
  unfold graphGet at h
  match hf : g.find? (fun pr => pr.1 == a) with
  | none =>
    rw [hf] at h
    exact absurd h (List.not_mem_nil n)
  | some pr =>
    rw [hf] at h
    have hm : pr ∈ g := List.mem_of_find?_eq_some hf
    unfold nodePool
    refine List.mem_append.mpr (Or.inr ?_)
    exact List.mem_flatten.mpr ⟨pr.2, List.mem_map.mpr ⟨pr, hm, rfl⟩, h⟩

/-- A node with an outgoing edge is a key of the graph. -/
theorem key_of_edge (g : List (String × List String)) (a b : String)
    (h : Edge g a b) : a ∈ g.map (fun pr => pr.1) := by
  unfold Edge graphGet at h
  match hf : g.find? (fun pr => pr.1 == a) with
  | none =>
    rw [hf] at h
    exact absurd h (List.not_mem_nil b)
  | some pr =>
    have hm : pr ∈ g := List.mem_of_find?_eq_some hf
    have hid := List.find?_some hf
    have hpa : pr.1 = a := by simpa using hid
    exact hpa ▸ List.mem_map.mpr ⟨pr, hm, rfl⟩

/-- Extending a path by one edge. -/
theorem path_snoc (g : List (String × List String)) {a b c : String}
    (hp : Path g a b) (he : Edge g b c) : Path g a c := by
  induction hp with
  | single h => exact Path.cons h (Path.single he)
  | cons h _ ih => exact Path.cons h (ih he)

/-- The start of a path is a key of the graph. -/
theorem key_of_path (g : List (String × List String)) {v w : String}
    (h : Path g v w) : v ∈ g.map (fun pr => pr.1) := by
  cases h with
  | single he => exact key_of_edge g v _ he
  | cons he _ => exact key_of_edge g v _ he

/-- A node from which a cycle is reachable has a dependency from which a
cycle is reachable. -/
theorem rc_step (g : List (String × List String)) (v : String)
    (h : ReachesCycle g v) : ∃ n ∈ graphGet g v, ReachesCycle g n := by
  obtain ⟨w, hww, hvw⟩ := h
  rcases hvw with rfl | hvw
  · cases hww with
    | single he => exact ⟨v, he, ⟨v, Path.single he, Or.inl rfl⟩⟩
    | @cons a b c he hp => exact ⟨b, he, ⟨v, Path.cons he hp, Or.inr hp⟩⟩
  · cases hvw with
    | single he => exact ⟨w, he, ⟨w, hww, Or.inl rfl⟩⟩
    | @cons a b c he hp => exact ⟨b, he, ⟨w, hww, Or.inr hp⟩⟩

/-- Along a well-formed recursion stack any member reaches the top. -/
theorem stack_mem_path (g : List (String × List String)) :
    ∀ (stack : List String) (node n : String), StackOk g (node :: stack) →
      n ∈ node :: stack → n = node ∨ Path g n node := by
  intro stack
  induction stack with
  | nil =>
    intro node n _ hm
    rcases List.mem_cons.mp hm with rfl | hm
    · exact Or.inl rfl
    · exact absurd hm (List.not_mem_nil n)
  | cons b rest ih =>
    intro node n hok hm
    obtain ⟨he, hok'⟩ := hok
    rcases List.mem_cons.mp hm with rfl | hm
    · exact Or.inl rfl
    · rcases ih b n hok' hm with rfl | hp
      · exact Or.inr (Path.single he)
      · exact Or.inr (path_snoc g hp he)

/-- The neighbor loop only grows the visited set. -/
theorem dfsStep_mono (visit : String → List String → List String → DfsRes)
    (hv : ∀ n vis stk vis', visit n vis stk = .finished vis' → vis ⊆ vis') :
    ∀ (ns visited stack : List String) (visited' : List String),
      dfsStep visit ns visited stack = .finished visited' → visited ⊆ visited' := by
  intro ns
  induction ns with
  | nil =>
    intro visited stack visited' h
    cases h
    exact fun a ha => ha
  | cons n ns ih =>
    intro visited stack visited' h
    unfold dfsStep at h
    by_cases hc : visited.contains n = true
    · rw [if_pos hc] at h
      by_cases hs : stack.contains n = true
      · rw [if_pos hs] at h
        cases h
      · rw [if_neg hs] at h
        exact ih _ _ _ h
    · rw [if_neg hc] at h
      match hres : visit n visited stack with
      | .fuelOut => rw [hres] at h; cases h
      | .cyc => rw [hres] at h; cases h
      | .finished v2 =>
        rw [hres] at h
        exact fun a ha => ih _ _ _ h (hv _ _ _ _ hres ha)

/-- `dfs` only grows the visited set and visits its start node. -/
theorem dfsVisit_mono (g : List (String × List String)) :
    ∀ (fuel : Nat) (node : String) (visited stack visited' : List String),
      dfsVisit g fuel node visited stack = .finished visited' →
      visited ⊆ visited' ∧ node ∈ visited' := by
  intro fuel
  induction fuel with
  | zero =>
    intro node visited stack visited' h
    cases h
  | succ f ih =>
    intro node visited stack visited' h
    unfold dfsVisit at h
    have hmono := dfsStep_mono (dfsVisit g f)
      (fun n vis stk vis' hh => (ih n vis stk vis' hh).1) _ _ _ _ h
    exact ⟨fun a ha => hmono (List.mem_cons_of_mem _ ha),
      hmono (List.mem_cons_self _ _)⟩

/-- The termination measure is antitone in the visited set. -/
theorem unvisitedCount_le_of_subset (g : List (String × List String))
    (v v' : List String) (h : v ⊆ v') :
    unvisitedCount g v' ≤ unvisitedCount g v := by
  unfold unvisitedCount
  apply Finset.card_le_card
  intro x hx
  simp only [Finset.mem_sdiff, List.mem_toFinset] at hx ⊢
  exact ⟨hx.1, fun hmem => hx.2 (h hmem)⟩

/-- An unvisited pool node keeps the measure positive. -/
theorem unvisitedCount_pos (g : List (String × List String)) (v : List String)
    (node : String) (hp : node ∈ nodePool g) (hn : ¬ node ∈ v) :
    1 ≤ unvisitedCount g v := by
  unfold unvisitedCount
  refine Finset.card_pos.mpr ⟨node, ?_⟩
  simp only [Finset.mem_sdiff, List.mem_toFinset]
  exact ⟨hp, hn⟩

/-- Visiting an unvisited pool node strictly decreases the measure. -/
theorem unvisitedCount_cons_lt (g : List (String × List String)) (v : List String)
    (node : String) (hp : node ∈ nodePool g) (hn : ¬ node ∈ v) :
    unvisitedCount g (node :: v) + 1 ≤ unvisitedCount g v := by
  unfold unvisitedCount
  have h1 : (node :: v).toFinset = insert node v.toFinset := by simp
  rw [h1]
  have h2 : (nodePool g).toFinset \ insert node v.toFinset =
      ((nodePool g).toFinset \ v.toFinset).erase node := by
    ext x
    simp only [Finset.mem_sdiff, Finset.mem_erase, Finset.mem_insert,
      List.mem_toFinset]
    tauto
  rw [h2]
  have hmem : node ∈ (nodePool g).toFinset \ v.toFinset := by
    simp only [Finset.mem_sdiff, List.mem_toFinset]
    exact ⟨hp, hn⟩
  rw [Finset.card_erase_of_mem hmem]
  have hpos := Finset.card_pos.mpr ⟨node, hmem⟩
  omega

/-- The recursion budget is sufficient: `dfs` started on an unvisited pool
node with at least `unvisitedCount` budget never runs out. -/
theorem dfs_fuel (g : List (String × List String)) :
    ∀ (fuel : Nat) (node : String) (visited stack : List String),
      node ∈ nodePool g → ¬ node ∈ visited →
      unvisitedCount g visited ≤ fuel →
      dfsVisit g fuel node visited stack ≠ .fuelOut := by
  intro fuel
  induction fuel with
  | zero =>
    intro node visited stack hp hn hc
    have := unvisitedCount_pos g visited node hp hn
    omega
  | succ f ih =>
    intro node visited stack hp hn hc
    unfold dfsVisit
    have hcount : unvisitedCount g (node :: visited) ≤ f := by
      have := unvisitedCount_cons_lt g visited node hp hn
      omega
    have hstep : ∀ (ns v1 s1 : List String), (∀ n ∈ ns, n ∈ nodePool g) →
        unvisitedCount g v1 ≤ f →
        dfsStep (dfsVisit g f) ns v1 s1 ≠ .fuelOut := by
      intro ns
      induction ns with
      | nil =>
        intro v1 s1 _ _
        simp [dfsStep]
      | cons n ns ihn =>
        intro v1 s1 hpool hcnt
        unfold dfsStep
        by_cases hc1 : v1.contains n = true
        · rw [if_pos hc1]
          by_cases hs1 : s1.contains n = true
          · rw [if_pos hs1]
            intro h
            cases h
          · rw [if_neg hs1]
            exact ihn _ _ (fun m hm => hpool m (List.mem_cons_of_mem _ hm)) hcnt
        · rw [if_neg hc1]
          match hres : dfsVisit g f n v1 s1 with
          | .fuelOut =>
            exact absurd hres (ih n v1 s1 (hpool n (List.mem_cons_self _ _))
              (fun hm => hc1 ((contains_iff v1 n).mpr hm)) hcnt)
          | .cyc =>
            intro h
            cases h
          | .finished v2 =>
            have hsub := (dfsVisit_mono g f n v1 s1 v2 hres).1
            exact ihn _ _ (fun m hm => hpool m (List.mem_cons_of_mem _ hm))
              (le_trans (unvisitedCount_le_of_subset g v1 v2 hsub) hcnt)
    exact hstep _ _ _ (fun n hm => graphGet_subset_pool g node n hm) hcount

/-- Soundness of the neighbor loop: a reported back-edge really closes a
directed cycle, given the recursion stack is an edge chain. -/
theorem dfsStep_sound (g : List (String × List String))
    (visit : String → List String → List String → DfsRes)
    (hv : ∀ n vis stk, StackOk g (n :: stk) → visit n vis stk = .cyc → HasCycle g) :
    ∀ (ns : List String) (node : String) (rest visited : List String),
      StackOk g (node :: rest) →
      (∀ n ∈ ns, Edge g node n) →
      dfsStep visit ns visited (node :: rest) = .cyc → HasCycle g := by
  intro ns
  induction ns with
  | nil =>
    intro node rest visited _ _ h
    cases h
  | cons n ns ih =>
    intro node rest visited hok hedge h
    unfold dfsStep at h
    by_cases hc : visited.contains n = true
    · rw [if_pos hc] at h
      by_cases hs : (node :: rest).contains n = true
      · have hmem : n ∈ node :: rest := (contains_iff _ _).mp hs
        have hen : Edge g node n := hedge n (List.mem_cons_self _ _)
        rcases stack_mem_path g rest node n hok hmem with rfl | hp
        · exact ⟨n, Path.single hen⟩
        · exact ⟨n, path_snoc g hp hen⟩
      · rw [if_neg hs] at h
        exact ih node rest visited hok
          (fun m hm => hedge m (List.mem_cons_of_mem _ hm)) h
    · rw [if_neg hc] at h
      match hres : visit n visited (node :: rest) with
      | .fuelOut => rw [hres] at h; cases h
      | .cyc =>
        exact hv n visited (node :: rest)
          ⟨hedge n (List.mem_cons_self _ _), hok⟩ hres
      | .finished v2 =>
        rw [hres] at h
        exact ih node rest v2 hok
          (fun m hm => hedge m (List.mem_cons_of_mem _ hm)) h

/-- Soundness of `dfs`: reporting a cycle implies the graph has one. -/
theorem dfsVisit_sound (g : List (String × List String)) :
    ∀ (fuel : Nat) (node : String) (visited stack : List String),
      StackOk g (node :: stack) →
      dfsVisit g fuel node visited stack = .cyc → HasCycle g := by
  intro fuel
  induction fuel with
  | zero =>
    intro node visited stack _ h
    cases h
  | succ f ih =>
    intro node visited stack hok h
    unfold dfsVisit at h
    exact dfsStep_sound g (dfsVisit g f)
      (fun n vis stk hok' hh => ih n vis stk hok' hh)
      (graphGet g node) node stack (node :: visited) hok
      (fun n hn => hn) h

/-- Soundness of the top-level loop. -/
theorem dfsAll_sound (g : List (String × List String)) (fuel : Nat) :
    ∀ (ks visited : List String),
      dfsAll g fuel ks visited = .cyc → HasCycle g := by
  intro ks
  induction ks with
  | nil =>
    intro visited h
    cases h
  | cons k ks ih =>
    intro visited h
    unfold dfsAll at h
    by_cases hc : visited.contains k = true
    · rw [if_pos hc] at h
      exact ih _ h
    · rw [if_neg hc] at h
      match hres : dfsVisit g fuel k visited [] with
      | .fuelOut => rw [hres] at h; cases h
      | .cyc => exact dfsVisit_sound g fuel k visited [] trivial hres
      | .finished v2 => rw [hres] at h; exact ih _ h

/-- `_has_circular_dependencies` returning true implies a directed cycle
exists. -/
theorem has_cycle_of_circular (g : List (String × List String))
    (h : hasCircularDependencies g = true) : HasCycle g := by
  unfold hasCircularDependencies at h
  match hres : dfsAll g (dfsFuel g) (g.map (fun pr => pr.1)) [] with
  | .fuelOut => rw [hres] at h; cases h
  | .cyc => exact dfsAll_sound g (dfsFuel g) _ _ hres
  | .finished v => rw [hres] at h; cases h

/-- Completeness invariant of the neighbor loop: when it finishes without
reporting a cycle, every node that is visited but off the stack cannot reach
a cycle, and in particular no scanned dependency can. -/
theorem dfsStep_complete (g : List (String × List String)) (fuel : Nat)
    (hV : ∀ (node : String) (visited stack visited' : List String),
      ¬ node ∈ visited → stack ⊆ visited →
      (∀ x ∈ visited, ¬ x ∈ stack → ¬ ReachesCycle g x) →
      dfsVisit g fuel node visited stack = .finished visited' →
      (∀ x ∈ visited', ¬ x ∈ stack → ¬ ReachesCycle g x)) :
    ∀ (ns : List String) (node : String) (rest visited visited' : List String),
      (node :: rest) ⊆ visited →
      (∀ n ∈ ns, Edge g node n) →
      (∀ x ∈ visited, ¬ x ∈ (node :: rest) → ¬ ReachesCycle g x) →
      dfsStep (dfsVisit g fuel) ns visited (node :: rest) = .finished visited' →
      ((∀ x ∈ visited', ¬ x ∈ (node :: rest) → ¬ ReachesCycle g x) ∧
       (∀ n ∈ ns, ¬ ReachesCycle g n)) := by
  intro ns
  induction ns with
  | nil =>
    intro node rest visited visited' _ _ hsafe h
    cases h
    exact ⟨hsafe, fun n hn => absurd hn (List.not_mem_nil n)⟩
  | cons n ns ih =>
    intro node rest visited visited' hsub hedge hsafe h
    unfold dfsStep at h
    by_cases hc : visited.contains n = true
    · rw [if_pos hc] at h
      by_cases hs : (node :: rest).contains n = true
      · rw [if_pos hs] at h
        cases h
      · rw [if_neg hs] at h
        have hnsafe : ¬ ReachesCycle g n :=
          hsafe n ((contains_iff _ _).mp hc)
            (fun hm => hs ((contains_iff _ _).mpr hm))
        obtain ⟨h1, h2⟩ := ih node rest visited visited' hsub
          (fun m hm => hedge m (List.mem_cons_of_mem _ hm)) hsafe h
        refine ⟨h1, fun m hm => ?_⟩
        rcases List.mem_cons.mp hm with rfl | hm'
        · exact hnsafe
        · exact h2 m hm'
    · rw [if_neg hc] at h
      have hnv : ¬ n ∈ visited := fun hm => hc ((contains_iff _ _).mpr hm)
      match hres : dfsVisit g fuel n visited (node :: rest) with
      | .fuelOut => rw [hres] at h; cases h
      | .cyc => rw [hres] at h; cases h
      | .finished v2 =>
        rw [hres] at h
        have hpost := hV n visited (node :: rest) v2 hnv hsub hsafe hres
        have hmono := dfsVisit_mono g fuel n visited (node :: rest) v2 hres
        have hsub2 : (node :: rest) ⊆ v2 := fun a ha => hmono.1 (hsub ha)
        obtain ⟨h1, h2⟩ := ih node rest v2 visited' hsub2
          (fun m hm => hedge m (List.mem_cons_of_mem _ hm)) hpost h
        have hnn : ¬ n ∈ (node :: rest) := fun hm => hnv (hsub hm)
        have hnsafe : ¬ ReachesCycle g n := hpost n hmono.2 hnn
        refine ⟨h1, fun m hm => ?_⟩
        rcases List.mem_cons.mp hm with rfl | hm'
        · exact hnsafe
        · exact h2 m hm'

/-- Completeness invariant of `dfs`: finishing without a cycle report makes
every off-stack visited node — including the start node — unable to reach a
cycle. -/
theorem dfsVisit_complete (g : List (String × List String)) :
    ∀ (fuel : Nat) (node : String) (visited stack visited' : List String),
      ¬ node ∈ visited → stack ⊆ visited →
      (∀ x ∈ visited, ¬ x ∈ stack → ¬ ReachesCycle g x) →
      dfsVisit g fuel node visited stack = .finished visited' →
      (∀ x ∈ visited', ¬ x ∈ stack → ¬ ReachesCycle g x) := by
  intro fuel
  induction fuel with
  | zero =>
    intro node visited stack visited' _ _ _ h
    cases h
  | succ f ih =>
    intro node visited stack visited' hnv hss hsafe h
    unfold dfsVisit at h
    have hsub : (node :: stack) ⊆ (node :: visited) := by
      intro a ha
      rcases List.mem_cons.mp ha with rfl | ha'
      · exact List.mem_cons_self _ _
      · exact List.mem_cons_of_mem _ (hss ha')
    have hsafe' : ∀ x ∈ (node :: visited), ¬ x ∈ (node :: stack) →
        ¬ ReachesCycle g x := by
      intro x hx hnx
      rcases List.mem_cons.mp hx with rfl | hx'
      · exact absurd (List.mem_cons_self _ _) hnx
      · exact hsafe x hx' (fun hm => hnx (List.mem_cons_of_mem _ hm))
    obtain ⟨h1, h2⟩ := dfsStep_complete g f ih (graphGet g node) node stack
      (node :: visited) visited' hsub (fun n hn => hn) hsafe' h
    intro x hx hnx
    by_cases hxn : x = node
    · subst hxn
      intro hrc
      obtain ⟨n, hn, hrcn⟩ := rc_step g x hrc
      exact h2 n hn hrcn
    · refine h1 x hx (fun hm => ?_)
      rcases List.mem_cons.mp hm with h' | h'
      · exact hxn h'
      · exact hnx h'

/-- Completeness of the top-level loop: finishing cleanly leaves every key
visited and every visited node unable to reach a cycle. -/
theorem dfsAll_complete (g : List (String × List String)) (fuel : Nat) :
    ∀ (ks visited visited' : List String),
      (∀ x ∈ visited, ¬ ReachesCycle g x) →
      dfsAll g fuel ks visited = .finished visited' →
      ((∀ x ∈ visited', ¬ ReachesCycle g x) ∧ visited ⊆ visited' ∧
        ∀ k ∈ ks, k ∈ visited') := by
  intro ks
  induction ks with
  | nil =>
    intro visited visited' hsafe h
    cases h
    exact ⟨hsafe, fun a ha => ha, fun k hk => absurd hk (List.not_mem_nil k)⟩
  | cons k ks ih =>
    intro visited visited' hsafe h
    unfold dfsAll at h
    by_cases hc : visited.contains k = true
    · rw [if_pos hc] at h
      obtain ⟨h1, h2, h3⟩ := ih _ _ hsafe h
      refine ⟨h1, h2, fun m hm => ?_⟩
      rcases List.mem_cons.mp hm with rfl | hm'
      · exact h2 ((contains_iff _ _).mp hc)
      · exact h3 m hm'
    · rw [if_neg hc] at h
      have hnv : ¬ k ∈ visited := fun hm => hc ((contains_iff _ _).mpr hm)
      match hres : dfsVisit g fuel k visited [] with
      | .fuelOut => rw [hres] at h; cases h
      | .cyc => rw [hres] at h; cases h
      | .finished v2 =>
        rw [hres] at h
        have hsafe2 : ∀ x ∈ v2, ¬ ReachesCycle g x := by
          have hcomp := dfsVisit_complete g fuel k visited [] v2 hnv
            (fun a ha => absurd ha (List.not_mem_nil a))
            (fun x hx _ => hsafe x hx) hres
          exact fun x hx => hcomp x hx (List.not_mem_nil x)
        have hmono := dfsVisit_mono g fuel k visited [] v2 hres
        obtain ⟨h1, h2, h3⟩ := ih _ _ hsafe2 h
        refine ⟨h1, fun a ha => h2 (hmono.1 ha), fun m hm => ?_⟩
        rcases List.mem_cons.mp hm with rfl | hm'
        · exact h2 hmono.2
        · exact h3 m hm'

/-- The chosen budget bounds the measure from every visited set. -/
theorem unvisitedCount_le_fuel (g : List (String × List String))
    (v : List String) : unvisitedCount g v ≤ dfsFuel g := by
  unfold unvisitedCount dfsFuel
  have h1 : ((nodePool g).toFinset \ v.toFinset).card ≤ (nodePool g).toFinset.card :=
    Finset.card_le_card (Finset.sdiff_subset)
  have h2 := (nodePool g).toFinset_card_le
  omega

/-- The top-level loop never exhausts the chosen budget. -/
theorem dfsAll_no_fuelOut (g : List (String × List String)) :
    ∀ (ks visited : List String), (∀ k ∈ ks, k ∈ nodePool g) →
      dfsAll g (dfsFuel g) ks visited ≠ .fuelOut := by
  intro ks
  induction ks with
  | nil =>
    intro visited _
    simp [dfsAll]
  | cons k ks ih =>
    intro visited hpool
    unfold dfsAll
    by_cases hc : visited.contains k = true
    · rw [if_pos hc]
      exact ih _ (fun m hm => hpool m (List.mem_cons_of_mem _ hm))
    · rw [if_neg hc]
      match hres : dfsVisit g (dfsFuel g) k visited [] with
      | .fuelOut =>
        exact absurd hres (dfs_fuel g (dfsFuel g) k visited []
          (hpool k (List.mem_cons_self _ _))
          (fun hm => hc ((contains_iff _ _).mpr hm))
          (unvisitedCount_le_fuel g visited))
      | .cyc =>
        intro h
        cases h
      | .finished v2 =>
        exact ih _ (fun m hm => hpool m (List.mem_cons_of_mem _ hm))

/-- `_has_circular_dependencies` returning false implies the graph is
acyclic: every cycle node is a key, every key ends up visited, and visited
nodes reach no cycle. -/
theorem not_cycle_of_not_circular (g : List (String × List String))
    (h : hasCircularDependencies g = false) : ¬ HasCycle g := by
  unfold hasCircularDependencies at h
  match hres : dfsAll g (dfsFuel g) (g.map (fun pr => pr.1)) [] with
  | .fuelOut =>
    exact absurd hres (dfsAll_no_fuelOut g _ []
      (fun k hk => List.mem_append.mpr (Or.inl hk)))
  | .cyc => rw [hres] at h; cases h
  | .finished v =>
    rintro ⟨w, hww⟩
    obtain ⟨hsafe, _, hkeys⟩ := dfsAll_complete g (dfsFuel g) _ [] v
      (fun x hx => absurd hx (List.not_mem_nil x)) hres
    exact hsafe w (hkeys w (key_of_path g hww)) ⟨w, hww, Or.inl rfl⟩

/-- The missing-dependency scan finds nothing exactly when every referenced
dependency id is a key. -/
theorem findMissingDep_none_iff (l : List (String × List String)) (ids : List String) :
    findMissingDep l ids = none ↔ ∀ pr ∈ l, ∀ d ∈ pr.2, d ∈ ids := by
  induction l with
  | nil => simp [findMissingDep]
  | cons pr rest ih =>
    obtain ⟨sid, deps⟩ := pr
    constructor
    · intro h
      unfold findMissingDep at h
      match hf : deps.find? (fun d => !ids.contains d) with
      | some d => rw [hf] at h; cases h
      | none =>
        rw [hf] at h
        intro q hq dd hdd
        rcases List.mem_cons.mp hq with rfl | hq'
        · have hnp := List.find?_eq_none.mp hf dd hdd
          simp only [Bool.not_eq_true', Bool.not_eq_false] at hnp
          exact (contains_iff _ _).mp hnp
        · exact ih.mp h q hq' dd hdd
    · intro hall
      unfold findMissingDep
      match hf : deps.find? (fun d => !ids.contains d) with
      | some d =>
        have hd := List.find?_some hf
        have hdm := List.mem_of_find?_eq_some hf
        have hmem : d ∈ ids := hall (sid, deps) (List.mem_cons_self _ _) d hdm
        rw [← contains_iff] at hmem
        rw [hmem] at hd
        cases hd
      | none =>
        exact ih.mpr (fun q hq => hall q (List.mem_cons_of_mem _ hq))

/-- Validation at the graph level succeeds exactly on acyclic graphs whose
dependency references all exist. -/
theorem validateGraph_iff (g : List (String × List String)) :
    validateGraph g = .ok () ↔
      (¬ HasCycle g ∧ ∀ pr ∈ g, ∀ d ∈ pr.2, d ∈ g.map (fun x => x.1)) := by
  unfold validateGraph
  constructor
  · intro h
    by_cases hc : hasCircularDependencies g = true
    · rw [if_pos hc] at h
      cases h
    · have hcf : hasCircularDependencies g = false := by
        rcases Bool.eq_false_or_eq_true (hasCircularDependencies g) with h' | h'
        · exact absurd h' hc
        · exact h'
      rw [if_neg hc] at h
      refine ⟨not_cycle_of_not_circular g hcf, ?_⟩
      match hm : findMissingDep g (g.map (fun pr => pr.1)) with
      | some pr => rw [hm] at h; cases h
      | none => exact (findMissingDep_none_iff _ _).mp hm
  · rintro ⟨hnc, hdeps⟩
    have hcf : hasCircularDependencies g = false := by
      rcases Bool.eq_false_or_eq_true (hasCircularDependencies g) with h' | h'
      · exact absurd (has_cycle_of_circular g h') hnc
      · exact h'
    rw [if_neg (fun hcon => by rw [hcf] at hcon; cases hcon)]
    rw [(findMissingDep_none_iff _ _).mpr hdeps]

/-- Claim C7: `_validate_pipeline` succeeds for every step set whose
dependency graph is acyclic and whose referenced dependency ids all exist
as steps, and fails (raises `ValueError`) for every step set whose graph
contains a directed cycle — detected by the depth-first search in which a
back-edge to a node on the recursion stack is a cycle — or that references
a non-existent step id. -/
theorem C7_validate (p : Pipeline) :
    validatePipeline p = .ok () ↔
      (¬ HasCycle p.graph ∧
        ∀ s ∈ p.steps, ∀ d ∈ s.depends_on, d ∈ p.steps.map (fun t => t.id)) := by
  unfold validatePipeline
  rw [validateGraph_iff]
  constructor
  · rintro ⟨hnc, hdeps⟩
    refine ⟨hnc, fun s hs d hd => ?_⟩
    have := hdeps (s.id, s.depends_on)
      (List.mem_map.mpr ⟨s, hs, rfl⟩) d hd
    simpa [Pipeline.graph, List.map_map, Function.comp] using this
  · rintro ⟨hnc, hdeps⟩
    refine ⟨hnc, fun pr hpr d hd => ?_⟩
    obtain ⟨s, hs, hpr'⟩ := List.mem_map.mp hpr
    have hd' : d ∈ s.depends_on := by
      rw [← hpr'] at hd
      exact hd
    have := hdeps s hs d hd'
    simpa [Pipeline.graph, List.map_map, Function.comp] using this

end MagMed
